import Mathlib

/-!
# Verification of the hanflow-toolbox annotation pipeline core

A shallow embedding, in Lean 4, of the core of the `hanflow-toolbox`
repository — the HSK level classifier (`nlp.py`), the phonetic converter
(`pinyin_convert.py`), the token enricher (`job/db.py`) and the batch
article pipeline (`job/article_annotator.py`) — together with theorems
settling the specification's claims about these components.

Conventions of the embedding:
* Python strings are modelled as `List Char` (sequences of Unicode code
  points) or Lean `String` where convenient.
* Python dictionaries are modelled as association lists or as functions
  into `Option`.
* Code that can raise an exception is modelled with `Option`/`Except`.
* External collaborators (the LTP tokenizer, pypinyin, the LLM translation
  and TTS services, SHA-1 from `hashlib`) are opaque oracle parameters;
  everything else is translated from the repository's own source.
-/

namespace Hanflow

/-! ## `nlp.py` — HSK level classification

`classify_words_levels` buckets a word list into the eight histogram keys
of `nlp.py`.  The paragraph-to-word-list step in the source goes through
the external LTP tokenizer, so the embedding works on the word list that
the tokenizer produced.  The Python dict indexing `word_levels[level]`
raises `KeyError` when `level` is not one of the eight keys, which the
embedding models with `Option` (`none` = `KeyError`).
-/

namespace Nlp

/-- The seven genuine HSK tiers, highest last, as `nlp.py` spells them. -/
def hskLevelKeys : List String :=
  ["一级", "二级", "三级", "四级", "五级", "六级", "高等"]

/-- The not-in-HSK bucket key of `classify_words_levels`. -/
def nonHskKey : String := "非HSK词汇"

/-- The word-level histogram of `classify_words_levels`: one list per
bucket, in the source's key order. -/
structure WordLevels where
  l1 : List String
  l2 : List String
  l3 : List String
  l4 : List String
  l5 : List String
  l6 : List String
  adv : List String
  nonHsk : List String
  deriving Repr, DecidableEq

/-- The initial histogram (`word_levels` dict literal in `nlp.py`). -/
def WordLevels.empty : WordLevels := ⟨[], [], [], [], [], [], [], []⟩

/-- `word_levels[level].append(word)`: append to the bucket named `level`,
`none` when `level` is not one of the eight keys (Python `KeyError`). -/
def WordLevels.append (st : WordLevels) (level : String) (w : String) :
    Option WordLevels :=
  if level = "一级" then some { st with l1 := st.l1 ++ [w] }
  else if level = "二级" then some { st with l2 := st.l2 ++ [w] }
  else if level = "三级" then some { st with l3 := st.l3 ++ [w] }
  else if level = "四级" then some { st with l4 := st.l4 ++ [w] }
  else if level = "五级" then some { st with l5 := st.l5 ++ [w] }
  else if level = "六级" then some { st with l6 := st.l6 ++ [w] }
  else if level = "高等" then some { st with adv := st.adv ++ [w] }
  else if level = "非HSK词汇" then some { st with nonHsk := st.nonHsk ++ [w] }
  else none

/-- `classify_word_level(word, hsk_words)`: `hsk_words.get(word, None)`. -/
def classify_word_level (hsk_words : String → Option String) (word : String) :
    Option String :=
  hsk_words word

/-- Python truthiness of `classify_word_level`'s result, as used by
`if level:` in `classify_words_levels` (`None` and `""` are falsy). -/
def truthyLevel (hsk_words : String → Option String) (word : String) :
    Option String :=
  match hsk_words word with
  | some l => if l = "" then none else some l
  | none => none

/-- One loop iteration of `classify_words_levels`. -/
def classifyWordsStep (hsk_words : String → Option String)
    (st : WordLevels) (word : String) : Option WordLevels :=
  match truthyLevel hsk_words word with
  | some l => st.append l word
  | none => st.append nonHskKey word

/-- The `for word in words` loop of `classify_words_levels`; a `KeyError`
(`none` step) aborts the loop as the Python exception would. -/
def classifyWordsGo (hsk_words : String → Option String) :
    WordLevels → List String → Option WordLevels
  | st, [] => some st
  | st, w :: ws =>
      match classifyWordsStep hsk_words st w with
      | some st' => classifyWordsGo hsk_words st' ws
      | none => none

/-- `classify_words_levels(words, hsk_words)` from `nlp.py`. -/
def classify_words_levels (words : List String)
    (hsk_words : String → Option String) : Option WordLevels :=
  classifyWordsGo hsk_words WordLevels.empty words

/-- Total bucket size of a histogram (the `total_words` sum in
`classify_hsk_level_of_text`). -/
def WordLevels.total (st : WordLevels) : Nat :=
  st.l1.length + st.l2.length + st.l3.length + st.l4.length +
  st.l5.length + st.l6.length + st.adv.length + st.nonHsk.length

/-- The per-level counts that `classify_hsk_level_of_text` scans, in its
iteration order `["高等", "六级", "五级", "四级", "三级", "二级", "一级"]`. -/
def WordLevels.scanCounts (st : WordLevels) : List (String × Nat) :=
  [("高等", st.adv.length), ("六级", st.l6.length), ("五级", st.l5.length),
   ("四级", st.l4.length), ("三级", st.l3.length), ("二级", st.l2.length),
   ("一级", st.l1.length)]

/-- The threshold scan loop of `classify_hsk_level_of_text`.  The Python
expression `acc_count / total_words` raises `ZeroDivisionError` when
`total_words == 0`, modelled by `Except.error ()`; falling off the loop is
Python's implicit `return None`, modelled by `Except.ok none`. -/
def classifyScan (threshold : ℚ) (total : Nat) :
    List (String × Nat) → Nat → Except Unit (Option String)
  | [], _ => .ok none
  | (lv, c) :: rest, acc =>
      let acc' := acc + c
      if total = 0 then .error ()
      else if (acc' : ℚ) / (total : ℚ) > threshold then .ok (some lv)
      else classifyScan threshold total rest acc'

/-- `classify_hsk_level_of_text` from `nlp.py`, generalized over the
threshold that the source hard-codes as `0.2` (the specification treats
the threshold as a parameter of `classifyDocumentLevel`), and taking the
word histogram that the source computes via the external tokenizer. -/
def classifyDocumentLevel (threshold : ℚ) (st : WordLevels) :
    Except Unit (Option String) :=
  classifyScan threshold st.total st.scanCounts 0

/-- `classify_hsk_level_of_text` exactly as in the source: threshold `0.2`. -/
def classify_hsk_level_of_text (st : WordLevels) : Except Unit (Option String) :=
  classifyDocumentLevel (2/10) st

/-- Numeric rank of a tier: `一级 = 1` up to `高等 = 7`; anything else
(including the undetermined result) ranks `0`. -/
def levelRank (lv : String) : Nat :=
  if lv = "一级" then 1
  else if lv = "二级" then 2
  else if lv = "三级" then 3
  else if lv = "四级" then 4
  else if lv = "五级" then 5
  else if lv = "六级" then 6
  else if lv = "高等" then 7
  else 0

/-- Rank of a classification outcome: a tier ranks by `levelRank`,
undetermined (`ok none`) and the zero-division error rank `0`. -/
def resultRank : Except Unit (Option String) → Nat
  | .ok (some lv) => levelRank lv
  | _ => 0

/-- The expected bucket for a genuine tier `k`: the input words the
lexicon maps to `k`, in input order. -/
def bucketOf (hsk_words : String → Option String) (k : String)
    (words : List String) : List String :=
  words.filter (fun w => hsk_words w = some k)

/-- The expected not-in-HSK bucket: the input words the lexicon does not
map, in input order. -/
def bucketNonHsk (hsk_words : String → Option String)
    (words : List String) : List String :=
  words.filter (fun w => hsk_words w = none)

end Nlp

/-! ## `job/article_annotator.py` — article ids and the batch pipeline

`annotate_article` is a pure orchestration of external collaborators
(LLM translation, TTS, the tokenizer), so the embedding passes it as an
opaque `annotate` oracle returning `Except` (a Python exception inside it
is `Except.error`); everything else (`make_article_id`, `_has_content`,
`_sha1_10`, dedup, `fetch_existing_ids`, `bulk_upsert_articles`,
`annotate_articles`) is translated from the source.  `hashlib.sha1`'s
hexdigest is an opaque `sha1hex` oracle.  The article store
(`core.articles`) is an association list keyed by `_id`.
-/

namespace Annotator

/-- A raw scraped article: the dict fields that `article_annotator.py`
reads, each possibly missing (`none`). -/
structure RawArticle where
  source : Option String := none
  title : Option String := none
  link : Option String := none
  published : Option String := none
  date : Option String := none
  content : Option String := none
  excerpt : Option String := none
  level : Option String := none
  deriving Repr, DecidableEq

/-- Python `str.strip()` whitespace test (the ASCII whitespace class). -/
def pyIsSpace (c : Char) : Bool :=
  c = ' ' || c = '\t' || c = '\n' || c = '\r' || c = '\x0b' || c = '\x0c'

/-- Python `s.strip()`. -/
def pyStrip (s : String) : String :=
  String.mk (((s.toList.dropWhile pyIsSpace).reverse.dropWhile pyIsSpace).reverse)

/-- Python `a or b` where `a` is an optional string and `b` a string:
`None` and `""` are falsy. -/
def pyOrStr : Option String → String → String
  | some s, d => if s = "" then d else s
  | none, d => d

/-- Python `a or b` where both are optional strings. -/
def pyOrOpt : Option String → Option String → Option String
  | some s, b => if s = "" then b else some s
  | none, b => b

/-- `_sha1_10(s)`: the first 10 characters of the SHA-1 hexdigest of `s`
(`sha1hex` is the opaque `hashlib` oracle). -/
def sha1_10 (sha1hex : String → String) (s : String) : String :=
  String.mk ((sha1hex s).toList.take 10)

/-- `make_article_id(raw)` from `job/article_annotator.py`. -/
def make_article_id (sha1hex : String → String) (raw : RawArticle) : String :=
  let published := pyStrip (pyOrStr (pyOrOpt raw.published raw.date) "unknown-date")
  let link := pyStrip (pyOrStr raw.link "")
  published ++ "-" ++ sha1_10 sha1hex link

/-- `_has_content(raw)`: the body is non-empty after stripping. -/
def has_content (raw : RawArticle) : Bool :=
  pyStrip (pyOrStr raw.content "") ≠ ""

/-- An annotated article document.  `id` is the field `annotate_articles`
overwrites and `bulk_upsert_articles` keys on; `body` abstracts the
collaborator-produced payload (title/excerpt translations, sentences,
audio); `updatedAt` is set by `bulk_upsert_articles` at persist time. -/
structure ArticleDoc where
  id : String
  body : String
  updatedAt : Option Nat := none
  deriving Repr, DecidableEq

/-- Lookup by `_id` in the article store. -/
def storeLookup (store : List (String × ArticleDoc)) (aid : String) :
    Option ArticleDoc :=
  (store.find? (fun p => p.1 = aid)).map Prod.snd

/-- An idempotent `$set` upsert keyed by `_id`: replace the stored
document, or append a new one. -/
def storeSet (store : List (String × ArticleDoc)) (aid : String)
    (doc : ArticleDoc) : List (String × ArticleDoc) :=
  if store.any (fun p => p.1 = aid)
  then store.map (fun p => if p.1 = aid then (aid, doc) else p)
  else store ++ [(aid, doc)]

/-- `bulk_upsert_articles(articles_col, docs)`: raise `ValueError` on a
missing/empty `id`, otherwise upsert every document with `updatedAt`
stamped `now`. -/
def bulk_upsert_articles (now : Nat) (store : List (String × ArticleDoc))
    (docs : List ArticleDoc) : Except String (List (String × ArticleDoc)) :=
  docs.foldlM (fun st doc =>
    if doc.id = "" then Except.error "Annotated article missing id"
    else Except.ok (storeSet st doc.id { doc with updatedAt := some now })) store

/-- One step of the Python dict comprehension `{aid: raw for aid, raw in
items}`: an existing key keeps its (first-insertion) position but takes
the new value; a new key is appended. -/
def insertLastWins (acc : List (String × RawArticle))
    (p : String × RawArticle) : List (String × RawArticle) :=
  if acc.any (fun q => q.1 = p.1)
  then acc.map (fun q => if q.1 = p.1 then (q.1, p.2) else q)
  else acc ++ [p]

/-- The dedup dict of `annotate_articles` step 2 (last occurrence wins). -/
def dedupLastWins (items : List (String × RawArticle)) :
    List (String × RawArticle) :=
  items.foldl insertLastWins []

/-- `fetch_existing_ids(articles_col, ids)`: which candidate ids are
already stored. -/
def fetch_existing_ids (store : List (String × ArticleDoc))
    (ids : List String) : List String :=
  ids.filter (fun aid => (storeLookup store aid).isSome)

/-- The two valid `mode` values of `annotate_articles`. -/
inductive Mode where
  | skip
  | upsert
  deriving Repr, DecidableEq

/-- The annotation loop of `annotate_articles` step 4: skip already-stored
ids in skip mode, otherwise annotate; an exception from `annotate_article`
propagates and aborts the loop (there is no try/except around it). -/
def annotateLoop (annotate : RawArticle → Except String ArticleDoc)
    (mode : Mode) (existing : List String) :
    List ArticleDoc → List (String × RawArticle) → Except String (List ArticleDoc)
  | acc, [] => .ok acc
  | acc, (aid, raw) :: rest =>
      if mode = Mode.skip ∧ aid ∈ existing then
        annotateLoop annotate mode existing acc rest
      else
        match annotate raw with
        | .error e => .error e
        | .ok doc =>
            annotateLoop annotate mode existing
              (acc ++ [{ doc with id := aid }]) rest

/-- Steps 3–5 of `annotate_articles`, on the already-deduplicated list:
DB existence check (skip mode only), the annotation loop, and the final
bulk upsert. -/
def runAnnotateAndPersist (annotate : RawArticle → Except String ArticleDoc)
    (now : Nat) (store : List (String × ArticleDoc)) (mode : Mode)
    (dedup : List (String × RawArticle)) :
    Except String (List ArticleDoc × List (String × ArticleDoc)) :=
  let existing : List String :=
    match mode with
    | .skip => fetch_existing_ids store (dedup.map Prod.fst)
    | .upsert => []
  match annotateLoop annotate mode existing [] dedup with
  | .error e => .error e
  | .ok annotated =>
      match bulk_upsert_articles now store annotated with
      | .error e => .error e
      | .ok store' => .ok (annotated, store')

/-- `annotate_articles(raw_articles, ...)` from `job/article_annotator.py`:
filter empty bodies, compute ids, dedup last-wins, check existing ids
(skip mode), annotate the remaining candidates, bulk-upsert, and return
the processed documents together with the updated store. -/
def annotate_articles (sha1hex : String → String)
    (annotate : RawArticle → Except String ArticleDoc) (now : Nat)
    (store : List (String × ArticleDoc)) (raw_articles : List RawArticle)
    (mode : Mode) :
    Except String (List ArticleDoc × List (String × ArticleDoc)) :=
  let items := (raw_articles.filter has_content).map
    (fun raw => (make_article_id sha1hex raw, raw))
  if items = [] then .ok ([], store)
  else runAnnotateAndPersist annotate now store mode (dedupLastWins items)

/-- Lower-case hexadecimal digits, the alphabet of `hexdigest()`. -/
def isHexChar (c : Char) : Bool :=
  c.isDigit || ('a' ≤ c && c ≤ 'f')

end Annotator

/-! ## `pinyin_convert.py` — numbered-tone / marked-tone conversion

Python strings are modelled as `List Char`.  The regex
`[A-Za-zÜü:<accented>]+[0-5]?` is modelled by `takeWhile` over the
character class followed by one optional tone digit, which is exactly the
greedy behaviour of the pattern (digits are not in the class).
-/

namespace PinyinConvert

/-- The `_TONE_MARKS` table: base vowel → the plain vowel and its four
tone-marked variants. -/
def _TONE_MARKS : List (Char × List Char) :=
  [('a', ['a', 'ā', 'á', 'ǎ', 'à']),
   ('e', ['e', 'ē', 'é', 'ě', 'è']),
   ('i', ['i', 'ī', 'í', 'ǐ', 'ì']),
   ('o', ['o', 'ō', 'ó', 'ǒ', 'ò']),
   ('u', ['u', 'ū', 'ú', 'ǔ', 'ù']),
   ('ü', ['ü', 'ǖ', 'ǘ', 'ǚ', 'ǜ']),
   ('A', ['A', 'Ā', 'Á', 'Ǎ', 'À']),
   ('E', ['E', 'Ē', 'É', 'Ě', 'È']),
   ('I', ['I', 'Ī', 'Í', 'Ǐ', 'Ì']),
   ('O', ['O', 'Ō', 'Ó', 'Ǒ', 'Ò']),
   ('U', ['U', 'Ū', 'Ú', 'Ǔ', 'Ù']),
   ('Ü', ['Ü', 'Ǖ', 'Ǘ', 'Ǚ', 'Ǜ'])]

/-- `base_vowel in _TONE_MARKS` / `_TONE_MARKS[base_vowel]`. -/
def toneMarksLookup (c : Char) : Option (List Char) :=
  (_TONE_MARKS.find? (fun p => p.1 = c)).map Prod.snd

/-- `_REVERSE_TONE`, built from `_TONE_MARKS` exactly as the module-level
loop does: accented vowel → (base vowel, tone 1–4). -/
def _REVERSE_TONE : List (Char × Char × Nat) :=
  _TONE_MARKS.foldl (fun acc p =>
    acc ++ p.2.enum.filterMap (fun q =>
      if q.1 = 0 then none else some (q.2, p.1, q.1))) []

/-- Dictionary lookup in `_REVERSE_TONE`. -/
def reverseToneLookup (c : Char) : Option (Char × Nat) :=
  (_REVERSE_TONE.find? (fun p => p.1 = c)).map Prod.snd

/-- `_VOWELS_ALL = set("aeiouüAEIOUÜ")`. -/
def _VOWELS_ALL : List Char :=
  ['a', 'e', 'i', 'o', 'u', 'ü', 'A', 'E', 'I', 'O', 'U', 'Ü']

/-- Membership in `_VOWELS_ALL`. -/
def isVowelAll (c : Char) : Bool :=
  c ∈ _VOWELS_ALL

/-- The character class of `_PINYIN_CHUNK_RE`:
`A–Z`, `a–z`, `Ü`, `ü`, `:` and every accented vowel. -/
def isChunkChar (c : Char) : Bool :=
  ('A' ≤ c && c ≤ 'Z') || ('a' ≤ c && c ≤ 'z') || c = 'Ü' || c = 'ü' ||
  c = ':' || (reverseToneLookup c).isSome

/-- The optional trailing `[0-5]` of `_PINYIN_CHUNK_RE`. -/
def isToneDigit (c : Char) : Bool :=
  '0' ≤ c && c ≤ '5'

/-- `int(c)` for a digit character. -/
def digitToNat (c : Char) : Nat :=
  if c = '0' then 0 else if c = '1' then 1 else if c = '2' then 2
  else if c = '3' then 3 else if c = '4' then 4 else if c = '5' then 5
  else if c = '6' then 6 else if c = '7' then 7 else if c = '8' then 8
  else 9

/-- `str(tone)` for a single-digit tone. -/
def natToDigit : Nat → Char
  | 0 => '0' | 1 => '1' | 2 => '2' | 3 => '3' | 4 => '4'
  | 5 => '5' | 6 => '6' | 7 => '7' | 8 => '8' | _ => '9'

/-- Python `str.lower()` restricted to the chunk-class alphabet (ASCII
letters, `Ü`, and the uppercase accented vowels); identity elsewhere. -/
def pyLowerPairs : List (Char × Char) :=
  [('A', 'a'), ('B', 'b'), ('C', 'c'), ('D', 'd'), ('E', 'e'), ('F', 'f'),
   ('G', 'g'), ('H', 'h'), ('I', 'i'), ('J', 'j'), ('K', 'k'), ('L', 'l'),
   ('M', 'm'), ('N', 'n'), ('O', 'o'), ('P', 'p'), ('Q', 'q'), ('R', 'r'),
   ('S', 's'), ('T', 't'), ('U', 'u'), ('V', 'v'), ('W', 'w'), ('X', 'x'),
   ('Y', 'y'), ('Z', 'z'), ('Ü', 'ü'),
   ('Ā', 'ā'), ('Á', 'á'), ('Ǎ', 'ǎ'), ('À', 'à'),
   ('Ē', 'ē'), ('É', 'é'), ('Ě', 'ě'), ('È', 'è'),
   ('Ī', 'ī'), ('Í', 'í'), ('Ǐ', 'ǐ'), ('Ì', 'ì'),
   ('Ō', 'ō'), ('Ó', 'ó'), ('Ǒ', 'ǒ'), ('Ò', 'ò'),
   ('Ū', 'ū'), ('Ú', 'ú'), ('Ǔ', 'ǔ'), ('Ù', 'ù'),
   ('Ǖ', 'ǖ'), ('Ǘ', 'ǘ'), ('Ǚ', 'ǚ'), ('Ǜ', 'ǜ')]

/-- One character of `str.lower()`. -/
def pyLowerChar (c : Char) : Char :=
  match (pyLowerPairs.find? (fun p => p.1 = c)).map Prod.snd with
  | some c' => c'
  | none => c

/-- Python `s.replace(ab, r)` for a two-character pattern `ab` replaced by
one character `r`: left-to-right, non-overlapping. -/
def replacePair (a b r : Char) : List Char → List Char
  | x :: y :: rest =>
      if x = a ∧ y = b then r :: replacePair a b r rest
      else x :: replacePair a b r (y :: rest)
  | l => l

/-- Python `s.replace(a, r)` for single characters. -/
def replaceChar (a r : Char) (l : List Char) : List Char :=
  l.map (fun c => if c = a then r else c)

/-- Python `s.replace(a, rs)` where `rs` has two characters. -/
def expandChar (a : Char) (rs : List Char) : List Char → List Char
  | [] => []
  | c :: rest => (if c = a then rs else [c]) ++ expandChar a rs rest

/-- `_normalize_umlaut_in_num`: `u:`→`ü`, `U:`→`Ü`, `v`→`ü`, `V`→`Ü`,
in the source's replacement order. -/
def _normalize_umlaut_in_num (l : List Char) : List Char :=
  replaceChar 'V' 'Ü'
    (replaceChar 'v' 'ü'
      (replacePair 'U' ':' 'Ü'
        (replacePair 'u' ':' 'ü' l)))

/-- The three accepted umlaut output styles. -/
inductive UmlautStyle where
  | ue      -- "ü"
  | ucolon  -- "u:"
  | v       -- "v"
  deriving Repr, DecidableEq

/-- The two neutral-tone output styles. -/
inductive NeutralStyle where
  | omit
  | five
  deriving Repr, DecidableEq

/-- `_apply_umlaut_style_num`. -/
def _apply_umlaut_style_num (style : UmlautStyle) (l : List Char) :
    List Char :=
  match style with
  | .ue => l
  | .ucolon => expandChar 'Ü' ['U', ':'] (expandChar 'ü' ['u', ':'] l)
  | .v => replaceChar 'Ü' 'V' (replaceChar 'ü' 'v' l)

/-- `s.find(a)` (as an `Option`al index). -/
def findChar : List Char → Char → Option Nat
  | [], _ => none
  | x :: rest, a =>
      if x = a then some 0 else (findChar rest a).map (· + 1)

/-- `s.find(ab)` for a two-character pattern. -/
def findPair : List Char → Char → Char → Option Nat
  | x :: y :: rest, a, b =>
      if x = a ∧ y = b then some 0
      else (findPair (y :: rest) a b).map (· + 1)
  | _, _, _ => none

/-- `s.rfind(ab)` for a two-character pattern. -/
def rfindPair : List Char → Char → Char → Option Nat
  | x :: y :: rest, a, b =>
      match rfindPair (y :: rest) a b with
      | some i => some (i + 1)
      | none => if x = a ∧ y = b then some 0 else none
  | _, _, _ => none

/-- The final `for i in range(len(s)-1, -1, -1)` loop of
`_tone_target_index`: the largest index holding a vowel. -/
def lastVowelIdx : List Char → Option Nat
  | [] => none
  | x :: rest =>
      match lastVowelIdx rest with
      | some i => some (i + 1)
      | none => if isVowelAll x then some 0 else none

/-- `_tone_target_index(syllable)`: which vowel receives the tone mark
(`none` = Python's `-1`). -/
def _tone_target_index (s : List Char) : Option Nat :=
  let lower := s.map pyLowerChar
  match rfindPair lower 'i' 'u' with
  | some i => some (i + 1)
  | none =>
  match rfindPair lower 'u' 'i' with
  | some i => some (i + 1)
  | none =>
  match findChar lower 'a' with
  | some i => some i
  | none =>
  match findChar lower 'e' with
  | some i => some i
  | none =>
  match findPair lower 'o' 'u' with
  | some i => some i
  | none => lastVowelIdx s

/-- The per-chunk body of the `pinyin_num_to_tone` loop: strip a trailing
tone digit, re-normalize, and place the tone mark.  The inner `Option`
fallbacks mirror the source's explicit fallbacks (`idx == -1`,
`base_vowel not in _TONE_MARKS`); the `get?` bounds check is unreachable
because `_tone_target_index` returns in-range indices. -/
def processChunkNum (chunk0 : List Char) : List Char :=
  let tone : Nat :=
    match chunk0.getLast? with
    | some d => if d.isDigit then digitToNat d else 0
    | none => 0
  let chunk1 : List Char :=
    match chunk0.getLast? with
    | some d => if d.isDigit then chunk0.dropLast else chunk0
    | none => chunk0
  let chunk := _normalize_umlaut_in_num chunk1
  if tone = 0 ∨ tone = 5 ∨ chunk = [] then chunk
  else
    match _tone_target_index chunk with
    | none => chunk
    | some idx =>
        match chunk.get? idx with
        | none => chunk
        | some base =>
            match toneMarksLookup base with
            | none => chunk
            | some row =>
                chunk.take idx ++ [row.getD tone base] ++ chunk.drop (idx + 1)

/-- The scanning loop of `pinyin_num_to_tone` (input already normalized):
at a chunk-class character, match the maximal class run plus an optional
tone digit and convert that chunk; otherwise copy the character. -/
def convertNum : List Char → List Char
  | [] => []
  | c :: rest =>
      if h : isChunkChar c then
        match hafter : (c :: rest).dropWhile isChunkChar with
        | d :: rest' =>
            if isToneDigit d then
              processChunkNum ((c :: rest).takeWhile isChunkChar ++ [d]) ++
                convertNum rest'
            else
              processChunkNum ((c :: rest).takeWhile isChunkChar) ++
                convertNum (d :: rest')
        | [] => processChunkNum ((c :: rest).takeWhile isChunkChar)
      else c :: convertNum rest
  termination_by l => l.length
  decreasing_by
  · have h1 : (c :: rest).dropWhile isChunkChar = rest.dropWhile isChunkChar := by
      simp [List.dropWhile, h]
    have h2 : (rest.dropWhile isChunkChar).length ≤ rest.length :=
      (List.dropWhile_suffix isChunkChar).length_le
    have h3 : (d :: rest').length ≤ rest.length := by
      rw [h1] at hafter
      rw [← hafter]
      exact h2
    simp at h3 ⊢
    omega
  · have h1 : (c :: rest).dropWhile isChunkChar = rest.dropWhile isChunkChar := by
      simp [List.dropWhile, h]
    have h2 : (rest.dropWhile isChunkChar).length ≤ rest.length :=
      (List.dropWhile_suffix isChunkChar).length_le
    have h3 : (d :: rest').length ≤ rest.length := by
      rw [h1] at hafter
      rw [← hafter]
      exact h2
    simp at h3 ⊢
    omega
  · simp

/-- `pinyin_num_to_tone(pinyin_num)`: normalize `u:`/`v` spellings, then
convert every chunk. -/
def pinyin_num_to_tone (l : List Char) : List Char :=
  convertNum (_normalize_umlaut_in_num l)

/-- The `for j, ch in enumerate(chars)` loop of `pinyin_tone_to_num`:
replace the first accented vowel with its base and record its tone. -/
def replaceFirstAccented : List Char → Nat × List Char
  | [] => (0, [])
  | c :: rest =>
      match reverseToneLookup c with
      | some (base, t) => (t, base :: rest)
      | none =>
          let p := replaceFirstAccented rest
          (p.1, c :: p.2)

/-- The per-chunk body of the `pinyin_tone_to_num` loop. -/
def processChunkTone (neutral : NeutralStyle) (uml : UmlautStyle)
    (chunk : List Char) : List Char :=
  let p := replaceFirstAccented chunk
  let plain := _apply_umlaut_style_num uml (_normalize_umlaut_in_num p.2)
  if p.1 = 0 then
    match neutral with
    | .five => plain ++ ['5']
    | .omit => plain
  else plain ++ [natToDigit p.1]

/-- The scanning loop of `pinyin_tone_to_num`. -/
def convertTone (neutral : NeutralStyle) (uml : UmlautStyle) :
    List Char → List Char
  | [] => []
  | c :: rest =>
      if h : isChunkChar c then
        match hafter : (c :: rest).dropWhile isChunkChar with
        | d :: rest' =>
            if isToneDigit d then
              processChunkTone neutral uml
                  ((c :: rest).takeWhile isChunkChar ++ [d]) ++
                convertTone neutral uml rest'
            else
              processChunkTone neutral uml ((c :: rest).takeWhile isChunkChar) ++
                convertTone neutral uml (d :: rest')
        | [] => processChunkTone neutral uml ((c :: rest).takeWhile isChunkChar)
      else c :: convertTone neutral uml rest
  termination_by l => l.length
  decreasing_by
  · have h1 : (c :: rest).dropWhile isChunkChar = rest.dropWhile isChunkChar := by
      simp [List.dropWhile, h]
    have h2 : (rest.dropWhile isChunkChar).length ≤ rest.length :=
      (List.dropWhile_suffix isChunkChar).length_le
    have h3 : (d :: rest').length ≤ rest.length := by
      rw [h1] at hafter
      rw [← hafter]
      exact h2
    simp at h3 ⊢
    omega
  · have h1 : (c :: rest).dropWhile isChunkChar = rest.dropWhile isChunkChar := by
      simp [List.dropWhile, h]
    have h2 : (rest.dropWhile isChunkChar).length ≤ rest.length :=
      (List.dropWhile_suffix isChunkChar).length_le
    have h3 : (d :: rest').length ≤ rest.length := by
      rw [h1] at hafter
      rw [← hafter]
      exact h2
    simp at h3 ⊢
    omega
  · simp

/-- `pinyin_tone_to_num(pinyin_tone, neutral_style, umlaut_style)`. -/
def pinyin_tone_to_num (neutral : NeutralStyle) (uml : UmlautStyle)
    (l : List Char) : List Char :=
  convertTone neutral uml l

/-- String-level wrapper of `pinyin_num_to_tone`. -/
def pinyin_num_to_tone_str (s : String) : String :=
  String.mk (pinyin_num_to_tone s.toList)

/-- String-level wrapper of `pinyin_tone_to_num`. -/
def pinyin_tone_to_num_str (neutral : NeutralStyle) (uml : UmlautStyle)
    (s : String) : String :=
  String.mk (pinyin_tone_to_num neutral uml s.toList)

/-! ### Valid numbered-tone strings

A valid numbered-tone pinyin string is a sequence of syllables and
separator characters: each syllable is a non-empty run of pinyin letters
(in `ü`-normal form here; rendered per umlaut style) containing a vowel,
followed by a tone digit 1–4, by `5` for a neutral syllable under the
append-five convention, or by nothing under the omit convention; a
separator is any character outside the chunk class and not a tone digit
(whitespace, CJK punctuation, …), and two syllables never touch without a
separator — exactly the whitespace/punctuation-delimited chunks the
specification describes.
-/

/-- The letters a numbered syllable may use, in `ü`-normal form:
ASCII letters except `v`/`V` (which are umlaut spellings), plus `ü`/`Ü`. -/
def pinyinLetters : List Char :=
  ['a', 'b', 'c', 'd', 'e', 'f', 'g', 'h', 'i', 'j', 'k', 'l', 'm',
   'n', 'o', 'p', 'q', 'r', 's', 't', 'u', 'w', 'x', 'y', 'z',
   'A', 'B', 'C', 'D', 'E', 'F', 'G', 'H', 'I', 'J', 'K', 'L', 'M',
   'N', 'O', 'P', 'Q', 'R', 'S', 'T', 'U', 'W', 'X', 'Y', 'Z',
   'ü', 'Ü']

/-- What the tone-marking step of `pinyin_num_to_tone` does to a chunk
whose tone digit was stripped: mark the vowel `_tone_target_index`
selects, with the source's fallbacks for a missing index or an unmarkable
character. -/
def markAt (ls : List Char) (tone : Nat) : List Char :=
  match _tone_target_index ls with
  | none => ls
  | some idx =>
      match ls.get? idx with
      | none => ls
      | some base =>
          match toneMarksLookup base with
          | none => ls
          | some row =>
              ls.take idx ++ [row.getD tone base] ++ ls.drop (idx + 1)

/-- One item of a numbered-tone pinyin string: a separator character or a
syllable (letters in `ü`-normal form plus a tone). -/
inductive NumItem where
  | sep (c : Char)
  | syl (letters : List Char) (tone : Nat)
  deriving Repr, DecidableEq

/-- Whether an item is a syllable. -/
def NumItem.isSyl : NumItem → Bool
  | .syl _ _ => true
  | .sep _ => false

/-- Render one syllable in the given umlaut style, with its tone digit
(tone `0` = the omit-neutral convention, no digit). -/
def renderSyl (uml : UmlautStyle) (ls : List Char) (tone : Nat) : List Char :=
  _apply_umlaut_style_num uml ls ++ (if tone = 0 then [] else [natToDigit tone])

/-- Render a numbered-tone string from its items. -/
def renderNum (uml : UmlautStyle) : List NumItem → List Char
  | [] => []
  | .sep c :: rest => c :: renderNum uml rest
  | .syl ls t :: rest => renderSyl uml ls t ++ renderNum uml rest

/-- The marked form of one syllable: tones 1–4 are marked at the selected
vowel, neutral syllables stay plain. -/
def markedSyl (ls : List Char) (tone : Nat) : List Char :=
  if 1 ≤ tone ∧ tone ≤ 4 then markAt ls tone else ls

/-- The expected tone-marked rendering of an item list (always in
`ü`-normal form, as `pinyin_num_to_tone` normalizes its input). -/
def renderMarked : List NumItem → List Char
  | [] => []
  | .sep c :: rest => c :: renderMarked rest
  | .syl ls t :: rest => markedSyl ls t ++ renderMarked rest

/-- A valid separator: outside the chunk class and not a tone digit. -/
def ValidSepChar (c : Char) : Prop :=
  isChunkChar c = false ∧ isToneDigit c = false

/-- Valid syllable letters: non-empty, drawn from `pinyinLetters`, with at
least one vowel. -/
def ValidSylLetters (ls : List Char) : Prop :=
  ls ≠ [] ∧ (∀ c ∈ ls, c ∈ pinyinLetters) ∧ ∃ c ∈ ls, isVowelAll c = true

/-- A valid tone under the chosen neutral-tone convention. -/
def ValidTone (neutral : NeutralStyle) (t : Nat) : Prop :=
  (1 ≤ t ∧ t ≤ 4) ∨ (t = 0 ∧ neutral = .omit) ∨ (t = 5 ∧ neutral = .five)

/-- Validity of one item. -/
def ValidItem (neutral : NeutralStyle) : NumItem → Prop
  | .sep c => ValidSepChar c
  | .syl ls t => ValidSylLetters ls ∧ ValidTone neutral t

/-- No two adjacent syllables in the item list (adjacent syllables would
merge into a single regex chunk). -/
def noAdjSyl : List NumItem → Bool
  | a :: b :: rest => (!(a.isSyl && b.isSyl)) && noAdjSyl (b :: rest)
  | _ => true

/-- Validity of an item list: every item valid, and no two adjacent
syllables. -/
def ValidItems (neutral : NeutralStyle) (items : List NumItem) : Prop :=
  (∀ it ∈ items, ValidItem neutral it) ∧ noAdjSyl items = true

instance (c : Char) : Decidable (ValidSepChar c) :=
  decidable_of_iff (isChunkChar c = false ∧ isToneDigit c = false) Iff.rfl

instance (ls : List Char) : Decidable (ValidSylLetters ls) :=
  decidable_of_iff (ls ≠ [] ∧ (∀ c ∈ ls, c ∈ pinyinLetters) ∧
    ∃ c ∈ ls, isVowelAll c = true) Iff.rfl

instance (neutral : NeutralStyle) (t : Nat) : Decidable (ValidTone neutral t) :=
  decidable_of_iff ((1 ≤ t ∧ t ≤ 4) ∨ (t = 0 ∧ neutral = .omit) ∨
    (t = 5 ∧ neutral = .five)) Iff.rfl

instance (neutral : NeutralStyle) (it : NumItem) :
    Decidable (ValidItem neutral it) :=
  match it with
  | .sep c => inferInstanceAs (Decidable (ValidSepChar c))
  | .syl ls t =>
      inferInstanceAs (Decidable (ValidSylLetters ls ∧ ValidTone neutral t))

instance (neutral : NeutralStyle) (items : List NumItem) :
    Decidable (ValidItems neutral items) :=
  decidable_of_iff ((∀ it ∈ items, ValidItem neutral it) ∧
    noAdjSyl items = true) Iff.rfl

/-- A two-character substring occurrence ("the chunk contains `ab`"), used
to state the specification's vowel-priority rule. -/
def hasPair (l : List Char) (a b : Char) : Prop :=
  ∃ j, l.get? j = some a ∧ l.get? (j + 1) = some b

end PinyinConvert


/-! ## `job/db.py` — the token enricher's dictionary cache

`ensure_dict_entry` consults the persistent dictionary cache (an
association list keyed by word), and on a miss or incomplete entry runs
the enrichment tiers: CC-CEDICT lookup (`cedict.py`, translated below),
pypinyin (`to_pinyin`, an opaque oracle) combined with
`pinyin_tone_to_num`, the HSK word index, the LLM gloss/translation
collaborators and the TTS audio attacher (opaque oracles).  Each consulted
tier/collaborator and the final cache write are recorded in an effect
list, in program order.
-/

namespace Db

/-- One CC-CEDICT entry as `load_cedict_simplified` produces it. -/
structure CedictEntry where
  pinyin : String
  senses : List String
  deriving Repr, DecidableEq

/-- Python `"; ".join(...)`. -/
def joinSemicolon : List String → String
  | [] => ""
  | [s] => s
  | s :: rest => s ++ "; " ++ joinSemicolon rest

/-- `cedict_lookup_en(word, lexicon)` from `cedict.py`. -/
def cedict_lookup_en (word : String)
    (lexicon : String → Option CedictEntry) : Option String :=
  match lexicon word with
  | some e => some (joinSemicolon e.senses)
  | none => none

/-- `cedict_lookup_pinyin(word, lexicon)` from `cedict.py`. -/
def cedict_lookup_pinyin (word : String)
    (lexicon : String → Option CedictEntry) : Option String :=
  (lexicon word).map CedictEntry.pinyin

/-- Python `str.lower()` (via the chunk-alphabet lowering map, which
covers ASCII). -/
def pyLowerStr (s : String) : String :=
  String.mk (s.toList.map PinyinConvert.pyLowerChar)

/-- Python truthiness of an optional string: `None` and `""` are falsy. -/
def pyFalsyStr : Option String → Bool
  | none => true
  | some s => s = ""

/-- A document of the `core.dict` collection, with the fields
`ensure_dict_entry` manipulates.  `hskLevel : Option (Option String)`
distinguishes a missing key (`none`) from a present key holding Python
`None` (`some none`) — `classify_word_level` returns `None` for non-HSK
words and that value is stored. -/
structure DictEntry where
  word : String
  pinyin : Option String := none
  hskLevel : Option (Option String) := none
  meanings_en : Option String := none
  meanings_es : Option String := none
  meanings_pt : Option String := none
  source_pinyin : Option String := none
  source_hskLevel : Option String := none
  source_en : Option String := none
  source_espt : Option String := none
  audio : Option (Option String) := none
  updatedAt : Option Nat := none
  deriving Repr, DecidableEq

/-- The observable tier consultations / collaborator invocations and the
cache write of one `ensure_dict_entry` call, in program order. -/
inductive Eff where
  | cedictPinyin
  | nlpPinyin
  | cedictEn
  | llmEn
  | llmEspt
  | tts
  | cacheWrite
  deriving Repr, DecidableEq

/-- `col.find_one({"_id": word})`. -/
def dictStoreLookup (store : List (String × DictEntry)) (w : String) :
    Option DictEntry :=
  (store.find? (fun p => p.1 = w)).map Prod.snd

/-- `col.replace_one({"_id": word}, doc, upsert=True)`. -/
def dictStoreSet (store : List (String × DictEntry)) (w : String)
    (d : DictEntry) : List (String × DictEntry) :=
  if store.any (fun p => p.1 = w)
  then store.map (fun p => if p.1 = w then (w, d) else p)
  else store ++ [(w, d)]

/-- The source's cache-hit test (`doc and "hskLevel" in doc`): the entry
found with its `hskLevel` KEY present — regardless of the key's value. -/
def cache_hit_doc (store : List (String × DictEntry)) (word : String) :
    Option DictEntry :=
  match dictStoreLookup store word with
  | some doc => if doc.hskLevel ≠ none then some doc else none
  | none => none

/-- The pinyin tier of `ensure_dict_entry`: prefer the CC-CEDICT pinyin
(lower-cased) when truthy, else synthesize via pypinyin (`tp`) +
`pinyin_tone_to_num`; `setdefault` keeps an existing value. -/
def pinyinStep (word : String) (doc : DictEntry)
    (lexicon : String → Option CedictEntry) (tp : String → String) :
    DictEntry × List Eff :=
  match cedict_lookup_pinyin word lexicon with
  | some p =>
      if p = "" then
        ({ doc with
            pinyin := if doc.pinyin = none
              then some (PinyinConvert.pinyin_tone_to_num_str .omit .ue (tp word))
              else doc.pinyin,
            source_pinyin := some "nlp" }, [Eff.cedictPinyin, Eff.nlpPinyin])
      else
        ({ doc with
            pinyin := if doc.pinyin = none
              then some (pyLowerStr p) else doc.pinyin,
            source_pinyin := some "cedict" }, [Eff.cedictPinyin])
  | none =>
      ({ doc with
          pinyin := if doc.pinyin = none
            then some (PinyinConvert.pinyin_tone_to_num_str .omit .ue (tp word))
            else doc.pinyin,
          source_pinyin := some "nlp" }, [Eff.cedictPinyin, Eff.nlpPinyin])

/-- `doc["hskLevel"] = classify_word_level(word, hsk_words)` (the value may
be Python `None`), plus its provenance tag. -/
def hskStep (word : String) (doc : DictEntry)
    (hsk_words : String → Option String) : DictEntry :=
  { doc with hskLevel := some (Nlp.classify_word_level hsk_words word),
             source_hskLevel := some "local" }

/-- The English-meaning tier: only when `m.get("en")` is falsy; CC-CEDICT
first, the LLM gloss generator (`llmEn`) when that is falsy too. -/
def enStep (word : String) (doc : DictEntry)
    (lexicon : String → Option CedictEntry) (llmEn : String → String) :
    DictEntry × List Eff :=
  if pyFalsyStr doc.meanings_en then
    let en0 := cedict_lookup_en word lexicon
    if pyFalsyStr en0 then
      ({ doc with meanings_en := some (llmEn word),
                  source_en := some "llm" }, [Eff.cedictEn, Eff.llmEn])
    else
      ({ doc with meanings_en := some (en0.getD ""),
                  source_en := some "cedict" }, [Eff.cedictEn])
  else (doc, [])

/-- The ES/PT tier: one collaborator call when either is falsy;
`setdefault` fills only missing keys.  (`m["en"]` is always present here:
either it was non-falsy, or the English tier just set it.) -/
def esptStep (doc : DictEntry) (llmEspt : String → String × String) :
    DictEntry × List Eff :=
  if pyFalsyStr doc.meanings_es || pyFalsyStr doc.meanings_pt then
    let trans := llmEspt (doc.meanings_en.getD "")
    ({ doc with
        meanings_es := if doc.meanings_es = none
          then some trans.1 else doc.meanings_es,
        meanings_pt := if doc.meanings_pt = none
          then some trans.2 else doc.meanings_pt,
        source_espt := some "llm" }, [Eff.llmEspt])
  else (doc, [])

/-- `attach_tts_audio` (opaque oracle `tts`) plus
`doc.setdefault("audio", audio_url)`. -/
def audioStep (word : String) (doc : DictEntry)
    (tts : String → Option String) : DictEntry × List Eff :=
  ({ doc with audio := if doc.audio = none
      then some (tts word) else doc.audio }, [Eff.tts])

/-- The enrichment path of `ensure_dict_entry` (cache miss or entry
without the `hskLevel` key), ending with the unconditional
`replace_one` write. -/
def enrichEntry (word : String) (doc : DictEntry)
    (store : List (String × DictEntry))
    (lexicon : String → Option CedictEntry)
    (hsk_words : String → Option String) (tp : String → String)
    (llmEn : String → String) (llmEspt : String → String × String)
    (tts : String → Option String) (now : Nat) :
    DictEntry × List (String × DictEntry) × List Eff :=
  let s1 := pinyinStep word doc lexicon tp
  let d2 := hskStep word s1.1 hsk_words
  let s3 := enStep word d2 lexicon llmEn
  let s4 := esptStep s3.1 llmEspt
  let s5 := audioStep word s4.1 tts
  let final := { s5.1 with updatedAt := some now }
  (final, dictStoreSet store word final,
    s1.2 ++ s3.2 ++ s4.2 ++ s5.2 ++ [Eff.cacheWrite])

/-- `ensure_dict_entry(word, col, lexicon, hsk_words, s3)` from
`job/db.py`: return the cached entry verbatim when it exists and its
`hskLevel` key is present; otherwise run the enrichment tiers and write
the merged entry back.  Returns the entry, the updated store, and the
effect log. -/
def ensure_dict_entry (word : String)
    (store : List (String × DictEntry))
    (lexicon : String → Option CedictEntry)
    (hsk_words : String → Option String) (tp : String → String)
    (llmEn : String → String) (llmEspt : String → String × String)
    (tts : String → Option String) (now : Nat) :
    DictEntry × List (String × DictEntry) × List Eff :=
  match dictStoreLookup store word with
  | some doc =>
      if doc.hskLevel ≠ none then (doc, store, [])
      else enrichEntry word doc store lexicon hsk_words tp llmEn llmEspt tts now
  | none =>
      enrichEntry word { word := word } store lexicon hsk_words tp
        llmEn llmEspt tts now

end Db

end Hanflow

/-! ## Theorems -/

namespace Hanflow.Nlp

lemma classify_go_eq (hsk : String → Option String)
    (H : ∀ w l, hsk w = some l → l ∈ hskLevelKeys) :
    ∀ (words : List String) (st : WordLevels),
      classifyWordsGo hsk st words = some
        { l1 := st.l1 ++ bucketOf hsk "一级" words,
          l2 := st.l2 ++ bucketOf hsk "二级" words,
          l3 := st.l3 ++ bucketOf hsk "三级" words,
          l4 := st.l4 ++ bucketOf hsk "四级" words,
          l5 := st.l5 ++ bucketOf hsk "五级" words,
          l6 := st.l6 ++ bucketOf hsk "六级" words,
          adv := st.adv ++ bucketOf hsk "高等" words,
          nonHsk := st.nonHsk ++ bucketNonHsk hsk words }
  | [], st => by
      simp [classifyWordsGo, bucketOf, bucketNonHsk]
  | w :: ws, st => by
      have key : ∀ st' : WordLevels, classifyWordsStep hsk st w = some st' →
          classifyWordsGo hsk st (w :: ws) = classifyWordsGo hsk st' ws := by
        intro st' h
        simp [classifyWordsGo, h]
      cases hw : hsk w with
      | none =>
          rw [key { st with nonHsk := st.nonHsk ++ [w] }
              (by simp [classifyWordsStep, truthyLevel, hw, WordLevels.append,
                    nonHskKey]),
            classify_go_eq hsk H ws]
          simp [bucketOf, bucketNonHsk, List.filter_cons, hw]
      | some l =>
          have hl' : l = "一级" ∨ l = "二级" ∨ l = "三级" ∨ l = "四级" ∨
              l = "五级" ∨ l = "六级" ∨ l = "高等" := by
            simpa [hskLevelKeys] using H w l hw
          rcases hl' with rfl | rfl | rfl | rfl | rfl | rfl | rfl
          · rw [key { st with l1 := st.l1 ++ [w] }
                (by simp [classifyWordsStep, truthyLevel, hw, WordLevels.append]),
              classify_go_eq hsk H ws]
            simp [bucketOf, bucketNonHsk, List.filter_cons, hw]
          · rw [key { st with l2 := st.l2 ++ [w] }
                (by simp [classifyWordsStep, truthyLevel, hw, WordLevels.append]),
              classify_go_eq hsk H ws]
            simp [bucketOf, bucketNonHsk, List.filter_cons, hw]
          · rw [key { st with l3 := st.l3 ++ [w] }
                (by simp [classifyWordsStep, truthyLevel, hw, WordLevels.append]),
              classify_go_eq hsk H ws]
            simp [bucketOf, bucketNonHsk, List.filter_cons, hw]
          · rw [key { st with l4 := st.l4 ++ [w] }
                (by simp [classifyWordsStep, truthyLevel, hw, WordLevels.append]),
              classify_go_eq hsk H ws]
            simp [bucketOf, bucketNonHsk, List.filter_cons, hw]
          · rw [key { st with l5 := st.l5 ++ [w] }
                (by simp [classifyWordsStep, truthyLevel, hw, WordLevels.append]),
              classify_go_eq hsk H ws]
            simp [bucketOf, bucketNonHsk, List.filter_cons, hw]
          · rw [key { st with l6 := st.l6 ++ [w] }
                (by simp [classifyWordsStep, truthyLevel, hw, WordLevels.append]),
              classify_go_eq hsk H ws]
            simp [bucketOf, bucketNonHsk, List.filter_cons, hw]
          · rw [key { st with adv := st.adv ++ [w] }
                (by simp [classifyWordsStep, truthyLevel, hw, WordLevels.append]),
              classify_go_eq hsk H ws]
            simp [bucketOf, bucketNonHsk, List.filter_cons, hw]

lemma buckets_length_sum (hsk : String → Option String)
    (H : ∀ w l, hsk w = some l → l ∈ hskLevelKeys) :
    ∀ words : List String,
      (bucketOf hsk "一级" words).length + (bucketOf hsk "二级" words).length +
      (bucketOf hsk "三级" words).length + (bucketOf hsk "四级" words).length +
      (bucketOf hsk "五级" words).length + (bucketOf hsk "六级" words).length +
      (bucketOf hsk "高等" words).length + (bucketNonHsk hsk words).length =
      words.length
  | [] => by simp [bucketOf, bucketNonHsk]
  | w :: ws => by
      have ih := buckets_length_sum hsk H ws
      have h1 : ∀ k : String, bucketOf hsk k (w :: ws) =
          (if hsk w = some k then [w] else []) ++ bucketOf hsk k ws := by
        intro k
        by_cases h : hsk w = some k <;> simp [bucketOf, List.filter_cons, h]
      have h2 : bucketNonHsk hsk (w :: ws) =
          (if hsk w = none then [w] else []) ++ bucketNonHsk hsk ws := by
        by_cases h : hsk w = none <;> simp [bucketNonHsk, List.filter_cons, h]
      rw [h1, h1, h1, h1, h1, h1, h1, h2]
      cases hw : hsk w with
      | none =>
          simp only [hw, List.length_append, List.length_cons]
          simp
          omega
      | some l =>
          have hl' : l = "一级" ∨ l = "二级" ∨ l = "三级" ∨ l = "四级" ∨
              l = "五级" ∨ l = "六级" ∨ l = "高等" := by
            simpa [hskLevelKeys] using H w l hw
          rcases hl' with rfl | rfl | rfl | rfl | rfl | rfl | rfl <;>
            simp only [hw] <;> simp <;> omega

/-- C9: `classify_words_levels` places each input word in exactly one of
the eight buckets — the bucket of its lexicon level when the lexicon maps
the word to a (genuine HSK) level, the `非HSK词汇` bucket otherwise — each
bucket keeps input order, and the bucket sizes sum to the number of input
words.  The hypothesis `H` records that the lexicon's values are the seven
HSK tier tags (as the reference tables guarantee); a value outside the
eight dict keys would make the Python raise `KeyError`. -/
theorem classify_words_levels_buckets (words : List String)
    (hsk : String → Option String)
    (H : ∀ w l, hsk w = some l → l ∈ hskLevelKeys) :
    classify_words_levels words hsk = some
      { l1 := bucketOf hsk "一级" words,
        l2 := bucketOf hsk "二级" words,
        l3 := bucketOf hsk "三级" words,
        l4 := bucketOf hsk "四级" words,
        l5 := bucketOf hsk "五级" words,
        l6 := bucketOf hsk "六级" words,
        adv := bucketOf hsk "高等" words,
        nonHsk := bucketNonHsk hsk words } ∧
    ∀ wl, classify_words_levels words hsk = some wl →
      wl.total = words.length := by
  have h := classify_go_eq hsk H words WordLevels.empty
  constructor
  · simpa [classify_words_levels, WordLevels.empty] using h
  · intro wl hwl
    rw [classify_words_levels, h] at hwl
    cases hwl
    simpa [WordLevels.total, WordLevels.empty] using buckets_length_sum hsk H words

/-- Witness for C9 at a concrete lexicon and word list. -/
theorem classify_words_levels_buckets_witness :
    classify_words_levels ["我", "人工智能", "爱"]
        (fun w => if w = "我" then some "一级"
                  else if w = "爱" then some "一级" else none) = some
      { l1 := ["我", "爱"], l2 := [], l3 := [], l4 := [], l5 := [], l6 := [],
        adv := [], nonHsk := ["人工智能"] } ∧
    ∀ wl, classify_words_levels ["我", "人工智能", "爱"]
        (fun w => if w = "我" then some "一级"
                  else if w = "爱" then some "一级" else none) = some wl →
      wl.total = 3 := by
  have H : ∀ w l, (fun w => if w = "我" then some "一级"
      else if w = "爱" then some "一级" else none) w = some l →
      l ∈ hskLevelKeys := by
    intro w l h
    by_cases h1 : w = "我" <;> by_cases h2 : w = "爱" <;>
      simp [h1, h2, hskLevelKeys] at h ⊢ <;> simp [h]
  have := classify_words_levels_buckets ["我", "人工智能", "爱"] _ H
  constructor
  · rw [this.1]
    rfl
  · intro wl hwl
    exact this.2 wl hwl

/-- C2 counterexample: on a text whose paragraph histogram is empty
(total word count zero), `classify_hsk_level_of_text` hits
`acc_count / total_words` with `total_words == 0` and raises
`ZeroDivisionError` (`Except.error ()`), which is not the undetermined
result (`Except.ok none`). -/
theorem classify_empty_histogram_raises :
    classify_hsk_level_of_text WordLevels.empty = Except.error () ∧
    classify_hsk_level_of_text WordLevels.empty ≠ Except.ok none := by
  constructor
  · rfl
  · intro h
    rw [show classify_hsk_level_of_text WordLevels.empty =
        Except.error () from rfl] at h
    exact Except.noConfusion h

/-- C2 (amended): on any histogram with zero words in total,
`classify_hsk_level_of_text` raises `ZeroDivisionError` rather than
returning the undetermined result. -/
theorem classify_zero_total_raises (st : WordLevels) (h : st.total = 0) :
    classify_hsk_level_of_text st = Except.error () := by
  simp [classify_hsk_level_of_text, classifyDocumentLevel,
    WordLevels.scanCounts, classifyScan, h]

/-- Witness for the amended C2 at the empty histogram. -/
theorem classify_zero_total_raises_witness :
    WordLevels.empty.total = 0 ∧
    classify_hsk_level_of_text WordLevels.empty = Except.error () :=
  ⟨rfl, classify_zero_total_raises WordLevels.empty rfl⟩

lemma classifyScan_ok_mem (t : ℚ) (total : Nat) :
    ∀ (l : List (String × Nat)) (acc : Nat) (lv : String),
      classifyScan t total l acc = .ok (some lv) → lv ∈ l.map Prod.fst
  | [], acc, lv => by simp [classifyScan]
  | (k, c) :: rest, acc, lv => by
      intro h
      rw [classifyScan] at h
      split_ifs at h with h0 h1
      · cases h; simp
      · exact List.mem_cons.2 (Or.inr (classifyScan_ok_mem t total rest _ lv h))

lemma classifyScan_threshold_mono (t1 t2 : ℚ) (h12 : t1 < t2) (total : Nat) :
    ∀ (l : List (String × Nat)) (acc : Nat),
      List.Pairwise (fun a b : String × Nat =>
        levelRank b.1 < levelRank a.1) l →
      resultRank (classifyScan t2 total l acc) ≤
      resultRank (classifyScan t1 total l acc)
  | [], acc, _ => le_refl _
  | (k, c) :: rest, acc, hp => by
      rw [classifyScan, classifyScan]
      by_cases h0 : total = 0
      · simp [h0, resultRank]
      · simp only [h0, if_false, gt_iff_lt]
        push_cast
        by_cases h2 : t2 < ((acc : ℚ) + (c : ℚ)) / (total : ℚ)
        · have h1 : t1 < ((acc : ℚ) + (c : ℚ)) / (total : ℚ) := lt_trans h12 h2
          simp [h1, h2]
        · simp only [h2, if_false]
          by_cases h1 : t1 < ((acc : ℚ) + (c : ℚ)) / (total : ℚ)
          · simp only [h1, if_true]
            cases hrec : classifyScan t2 total rest (acc + c) with
            | error e => simp [resultRank]
            | ok o =>
                cases o with
                | none => simp [resultRank]
                | some lv =>
                    have hmem := classifyScan_ok_mem t2 total rest _ lv hrec
                    simp only [resultRank]
                    rcases List.mem_map.1 hmem with ⟨p, hpmem, hpeq⟩
                    have := (List.pairwise_cons.1 hp).1 p hpmem
                    rw [hpeq] at this
                    exact le_of_lt this
          · simp only [h1, if_false]
            exact classifyScan_threshold_mono t1 t2 h12 total rest (acc + c)
              (List.pairwise_cons.1 hp).2

/-- C8: raising the threshold never yields a higher tier.  For every
histogram and thresholds `t1 < t2`, the tier computed by the
`classify_hsk_level_of_text` scan at threshold `t2` ranks no higher than
the tier computed at `t1` (undetermined ranks lowest; the zero-total
division error arises identically for both thresholds). -/
theorem classifyDocumentLevel_threshold_mono (t1 t2 : ℚ) (h : t1 < t2)
    (st : WordLevels) :
    resultRank (classifyDocumentLevel t2 st) ≤
    resultRank (classifyDocumentLevel t1 st) := by
  apply classifyScan_threshold_mono t1 t2 h
  simp [WordLevels.scanCounts, List.pairwise_cons, levelRank]

/-- Witness for C8 at thresholds `0.1 < 0.2` and a concrete histogram. -/
theorem classifyDocumentLevel_threshold_mono_witness :
    (1 : ℚ)/10 < 2/10 ∧
    resultRank (classifyDocumentLevel (2/10)
      ⟨["好"], [], [], [], [], [], ["卓越"], []⟩) ≤
    resultRank (classifyDocumentLevel (1/10)
      ⟨["好"], [], [], [], [], [], ["卓越"], []⟩) :=
  ⟨by norm_num,
   classifyDocumentLevel_threshold_mono (1/10) (2/10) (by norm_num) _⟩

end Hanflow.Nlp

namespace Hanflow.Annotator

lemma make_article_id_ne_empty (sha1hex : String → String) (raw : RawArticle) :
    make_article_id sha1hex raw ≠ "" := by
  intro h
  have h2 := congrArg String.length h
  rw [make_article_id] at h2
  simp only [String.length_append] at h2
  have hd : ("-" : String).length = 1 := rfl
  have h0 : ("" : String).length = 0 := rfl
  omega

/-- C10: `make_article_id` is total on raw-article dicts: both date fields
missing or empty falls back to the `unknown-date` sentinel, a missing
link hashes the empty string, and the result is always
`<date>-<10 hex characters>` — no exception path.  `sha1hex` is the
opaque `hashlib.sha1(...).hexdigest()` oracle, assumed to produce 40
lower-case hex characters. -/
theorem make_article_id_total (sha1hex : String → String)
    (hlen : ∀ s, (sha1hex s).length = 40)
    (hhex : ∀ s, ∀ c ∈ (sha1hex s).toList, isHexChar c = true)
    (raw : RawArticle) :
    make_article_id sha1hex raw =
      pyStrip (pyOrStr (pyOrOpt raw.published raw.date) "unknown-date") ++ "-" ++
      sha1_10 sha1hex (pyStrip (pyOrStr raw.link "")) ∧
    (sha1_10 sha1hex (pyStrip (pyOrStr raw.link ""))).length = 10 ∧
    (∀ c ∈ (sha1_10 sha1hex (pyStrip (pyOrStr raw.link ""))).toList,
      isHexChar c = true) ∧
    ((raw.published = none ∨ raw.published = some "") →
     (raw.date = none ∨ raw.date = some "") →
     pyStrip (pyOrStr (pyOrOpt raw.published raw.date) "unknown-date") =
       "unknown-date") ∧
    (raw.link = none → pyStrip (pyOrStr raw.link "") = "") := by
  refine ⟨rfl, ?_, ?_, ?_, ?_⟩
  · show (String.mk ((sha1hex (pyStrip (pyOrStr raw.link ""))).toList.take 10)).length = 10
    have he : (String.mk ((sha1hex (pyStrip (pyOrStr raw.link ""))).toList.take 10)).length
        = ((sha1hex (pyStrip (pyOrStr raw.link ""))).toList.take 10).length := rfl
    have ht : (sha1hex (pyStrip (pyOrStr raw.link ""))).toList.length = 40 :=
      hlen (pyStrip (pyOrStr raw.link ""))
    rw [he, List.length_take, ht]
    decide
  · intro c hc
    apply hhex (pyStrip (pyOrStr raw.link "")) c
    have hc' : c ∈ (sha1hex (pyStrip (pyOrStr raw.link ""))).toList.take 10 := hc
    exact List.take_subset _ _ hc'
  · rintro (hp | hp) (hd | hd) <;> simp [hp, hd, pyOrOpt, pyOrStr] <;> rfl
  · intro hl
    simp [hl, pyOrStr]
    rfl

/-- Witness for C10: the all-missing raw article, with a concrete
40-hex-character digest oracle. -/
theorem make_article_id_total_witness :
    (∀ s : String,
      ((fun _ : String => "da39a3ee5e6b4b0d3255bfef95601890afd80709") s).length
        = 40) ∧
    make_article_id (fun _ => "da39a3ee5e6b4b0d3255bfef95601890afd80709")
        {} =
      pyStrip (pyOrStr (pyOrOpt none none) "unknown-date") ++ "-" ++
      sha1_10 (fun _ => "da39a3ee5e6b4b0d3255bfef95601890afd80709")
        (pyStrip (pyOrStr none "")) := by
  refine ⟨fun s => rfl, ?_⟩
  exact (make_article_id_total
    (fun _ => "da39a3ee5e6b4b0d3255bfef95601890afd80709")
    (fun s => rfl)
    (fun s => by
      show ∀ c ∈ ("da39a3ee5e6b4b0d3255bfef95601890afd80709" : String).toList,
        isHexChar c = true
      decide) {}).1

/-- C6: two raw articles in one batch with the same content-addressed id:
`annotate_articles` annotates and persists exactly one document for that
id, built from the later occurrence (`r2`). -/
theorem annotate_articles_dedup_last_wins (sha1hex : String → String)
    (ann : RawArticle → Except String ArticleDoc) (now : Nat)
    (store : List (String × ArticleDoc)) (r1 r2 : RawArticle)
    (d2 : ArticleDoc)
    (h1 : has_content r1 = true) (h2 : has_content r2 = true)
    (hid : make_article_id sha1hex r1 = make_article_id sha1hex r2)
    (hann : ann r2 = .ok d2) :
    annotate_articles sha1hex ann now store [r1, r2] Mode.upsert =
      .ok ([{ d2 with id := make_article_id sha1hex r2 }],
        storeSet store (make_article_id sha1hex r2)
          { d2 with id := make_article_id sha1hex r2,
                    updatedAt := some now }) := by
  have hne : ({ d2 with id := make_article_id sha1hex r2 } : ArticleDoc).id ≠ "" :=
    make_article_id_ne_empty sha1hex r2
  have hdedup : dedupLastWins [(make_article_id sha1hex r2, r1),
      (make_article_id sha1hex r2, r2)] = [(make_article_id sha1hex r2, r2)] := by
    simp [dedupLastWins, insertLastWins]
  have hloop : annotateLoop ann Mode.upsert [] []
      [(make_article_id sha1hex r2, r2)] =
      .ok [{ d2 with id := make_article_id sha1hex r2 }] := by
    simp [annotateLoop, hann]
  have hbulk : bulk_upsert_articles now store
      [{ d2 with id := make_article_id sha1hex r2 }] =
      .ok (storeSet store (make_article_id sha1hex r2)
        { d2 with id := make_article_id sha1hex r2, updatedAt := some now }) := by
    simp only [bulk_upsert_articles, List.foldlM, hne, if_neg hne]
    rfl
  rw [annotate_articles]
  simp only [List.filter_cons, h1, h2, List.filter_nil, List.map, hid]
  rw [if_neg (by simp), hdedup, runAnnotateAndPersist]
  simp only [hloop, hbulk]

/-- Witness for C6: a concrete two-article batch sharing `(date, link)`. -/
theorem annotate_articles_dedup_last_wins_witness :
    annotate_articles
      (fun _ => "0123456789abcdef0123456789abcdef01234567")
      (fun r => Except.ok { id := "", body := pyOrStr r.content "" }) 7 []
      [{ published := some "2024-01-01", link := some "http://a",
         content := some "первый" },
       { published := some "2024-01-01", link := some "http://a",
         content := some "второй" }] Mode.upsert =
      .ok ([{ id := "2024-01-01-0123456789", body := "второй" }],
        [("2024-01-01-0123456789",
          { id := "2024-01-01-0123456789", body := "второй",
            updatedAt := some 7 })]) := by
  have := annotate_articles_dedup_last_wins
    (fun _ => "0123456789abcdef0123456789abcdef01234567")
    (fun r => Except.ok { id := "", body := pyOrStr r.content "" }) 7 []
    { published := some "2024-01-01", link := some "http://a",
      content := some "первый" }
    { published := some "2024-01-01", link := some "http://a",
      content := some "второй" }
    { id := "", body := "второй" } rfl rfl rfl rfl
  simpa using this

lemma annotateLoop_ok_all (ann : RawArticle → Except String ArticleDoc)
    (mode : Mode) (existing : List String) :
    ∀ (l : List (String × RawArticle)) (acc res : List ArticleDoc),
      annotateLoop ann mode existing acc l = .ok res →
      ∀ p ∈ l, (mode = Mode.skip ∧ p.1 ∈ existing) ∨
        ∃ doc, ann p.2 = .ok doc
  | [], acc, res => by simp
  | (aid, raw) :: rest, acc, res => by
      intro hloop p hp
      rw [annotateLoop] at hloop
      split_ifs at hloop with hskip
      · rcases List.mem_cons.1 hp with rfl | hp'
        · exact Or.inl hskip
        · exact annotateLoop_ok_all ann mode existing rest acc res hloop p hp'
      · cases hann : ann raw with
        | error e => rw [hann] at hloop; cases hloop
        | ok doc =>
            rw [hann] at hloop
            rcases List.mem_cons.1 hp with rfl | hp'
            · exact Or.inr ⟨doc, hann⟩
            · exact annotateLoop_ok_all ann mode existing rest _ res hloop p hp'

/-- C4 counterexample: a batch of two articles with distinct ids in which
annotating the first raises; `annotate_articles` propagates the failure
and never reaches the bulk upsert, so the second article is neither
annotated nor persisted — one bad article does abort the whole batch. -/
theorem annotate_articles_no_isolation_cex :
    annotate_articles (fun _ => "aaaaaaaaaaaaaaaaaaaaaaaaaaaaaaaaaaaaaaaa")
      (fun r => if r.published = some "2024-01-01"
        then Except.error "boom"
        else Except.ok { id := "", body := "annotated" }) 0 []
      [{ published := some "2024-01-01", content := some "x" },
       { published := some "2024-01-02", content := some "y" }]
      Mode.upsert = Except.error "boom" ∧
    ∀ res, annotate_articles
      (fun _ => "aaaaaaaaaaaaaaaaaaaaaaaaaaaaaaaaaaaaaaaa")
      (fun r => if r.published = some "2024-01-01"
        then Except.error "boom"
        else Except.ok { id := "", body := "annotated" }) 0 []
      [{ published := some "2024-01-01", content := some "x" },
       { published := some "2024-01-02", content := some "y" }]
      Mode.upsert ≠ Except.ok res := by
  constructor
  · rfl
  · intro res h
    rw [show annotate_articles
      (fun _ => "aaaaaaaaaaaaaaaaaaaaaaaaaaaaaaaaaaaaaaaa")
      (fun r => if r.published = some "2024-01-01"
        then Except.error "boom"
        else Except.ok { id := "", body := "annotated" }) 0 []
      [{ published := some "2024-01-01", content := some "x" },
       { published := some "2024-01-02", content := some "y" }]
      Mode.upsert = Except.error "boom" from rfl] at h
    exact Except.noConfusion h

/-- C4 (amended): a failure while annotating any selected article aborts
the whole batch run — `annotate_articles` surfaces the exception and
persists nothing (the bulk upsert at the end is never reached), rather
than isolating the failure to that article. -/
theorem annotate_articles_fail_aborts (sha1hex : String → String)
    (ann : RawArticle → Except String ArticleDoc) (now : Nat)
    (store : List (String × ArticleDoc)) (raws : List RawArticle)
    (mode : Mode) (aid : String) (raw : RawArticle) (e : String)
    (hmem : (aid, raw) ∈ dedupLastWins ((raws.filter has_content).map
      (fun r => (make_article_id sha1hex r, r))))
    (hskip : ¬(mode = Mode.skip ∧ aid ∈ fetch_existing_ids store
      ((dedupLastWins ((raws.filter has_content).map
        (fun r => (make_article_id sha1hex r, r)))).map Prod.fst)))
    (hfail : ann raw = .error e) :
    ∃ e', annotate_articles sha1hex ann now store raws mode =
      Except.error e' := by
  have hcore : ∀ dedup : List (String × RawArticle),
      (aid, raw) ∈ dedup →
      ¬(mode = Mode.skip ∧ aid ∈ fetch_existing_ids store (dedup.map Prod.fst)) →
      ∃ e', runAnnotateAndPersist ann now store mode dedup = Except.error e' := by
    intro dedup hmem' hskip'
    cases mode with
    | skip =>
        rw [runAnnotateAndPersist]
        cases hloop : annotateLoop ann Mode.skip
            (fetch_existing_ids store (dedup.map Prod.fst)) [] dedup with
        | error e' => exact ⟨e', rfl⟩
        | ok annotated =>
            exfalso
            have := annotateLoop_ok_all ann Mode.skip _ dedup [] annotated
              hloop (aid, raw) hmem'
            rcases this with ⟨_, hin⟩ | ⟨doc, hdoc⟩
            · exact hskip' ⟨rfl, hin⟩
            · rw [hfail] at hdoc; cases hdoc
    | upsert =>
        rw [runAnnotateAndPersist]
        cases hloop : annotateLoop ann Mode.upsert [] [] dedup with
        | error e' => exact ⟨e', rfl⟩
        | ok annotated =>
            exfalso
            have := annotateLoop_ok_all ann Mode.upsert [] dedup [] annotated
              hloop (aid, raw) hmem'
            rcases this with ⟨hm, _⟩ | ⟨doc, hdoc⟩
            · cases hm
            · rw [hfail] at hdoc; cases hdoc
  have hne : ¬((raws.filter has_content).map
      (fun r => (make_article_id sha1hex r, r)) = []) := by
    intro h
    rw [h] at hmem
    simp [dedupLastWins] at hmem
  rw [annotate_articles]
  rw [if_neg hne]
  exact hcore _ hmem hskip

/-- Witness for the amended C4 at a concrete failing batch. -/
theorem annotate_articles_fail_aborts_witness :
    ∃ e', annotate_articles
      (fun _ => "bbbbbbbbbbbbbbbbbbbbbbbbbbbbbbbbbbbbbbbb")
      (fun r => if r.published = some "2024-02-01"
        then Except.error "down"
        else Except.ok { id := "", body := "annotated" }) 3 []
      [{ published := some "2024-02-01", content := some "x" },
       { published := some "2024-02-02", content := some "y" }]
      Mode.upsert = Except.error e' := by
  apply annotate_articles_fail_aborts _ _ _ _ _ _
    (make_article_id (fun _ => "bbbbbbbbbbbbbbbbbbbbbbbbbbbbbbbbbbbbbbbb")
      { published := some "2024-02-01", content := some "x" })
    { published := some "2024-02-01", content := some "x" } "down"
  · decide
  · decide
  · rfl

end Hanflow.Annotator

namespace Hanflow.PinyinConvert

/-! ### Character-class facts (all by evaluation) -/

lemma pinyinLetters_chunk : ∀ c ∈ pinyinLetters, isChunkChar c = true := by
  decide

lemma pinyinLetters_unaccented :
    ∀ c ∈ pinyinLetters, reverseToneLookup c = none := by
  decide

lemma pinyinLetters_misc :
    ∀ c ∈ pinyinLetters, c.isDigit = false ∧ isToneDigit c = false ∧
      c ≠ ':' ∧ c ≠ 'v' ∧ c ≠ 'V' := by
  decide

lemma toneMarks_reverse :
    ∀ p ∈ _TONE_MARKS, ∀ t ∈ ([1, 2, 3, 4] : List Nat),
      reverseToneLookup (p.2.getD t ' ') = some (p.1, t) ∧
      isChunkChar (p.2.getD t ' ') = true ∧
      (p.2.getD t ' ') ≠ ':' ∧ (p.2.getD t ' ') ≠ 'v' ∧
      (p.2.getD t ' ') ≠ 'V' := by
  decide

lemma toneMarks_row_len : ∀ p ∈ _TONE_MARKS, p.2.length = 5 := by
  decide

lemma vowels_markable : ∀ c ∈ _VOWELS_ALL, (toneMarksLookup c).isSome = true := by
  decide

lemma lower_vowel_markable :
    ∀ c ∈ pinyinLetters, ∀ v ∈ (['a', 'e', 'i', 'o', 'u'] : List Char),
      pyLowerChar c = v → (toneMarksLookup c).isSome = true := by
  decide

lemma toneDigit_facts :
    ∀ t ∈ ([1, 2, 3, 4, 5] : List Nat),
      (natToDigit t).isDigit = true ∧ digitToNat (natToDigit t) = t ∧
      isToneDigit (natToDigit t) = true ∧ isChunkChar (natToDigit t) = false ∧
      (natToDigit t) ≠ ':' ∧ (natToDigit t) ≠ 'v' ∧ (natToDigit t) ≠ 'V' := by
  decide

lemma tone_mem_of_le (t : Nat) (h1 : 1 ≤ t) (h4 : t ≤ 4) :
    t ∈ ([1, 2, 3, 4] : List Nat) := by
  interval_cases t <;> decide

lemma tone_mem_of_le' (t : Nat) (h1 : 1 ≤ t) (h4 : t ≤ 5) :
    t ∈ ([1, 2, 3, 4, 5] : List Nat) := by
  interval_cases t <;> decide

lemma sepChar_facts (c : Char) (h : ValidSepChar c) :
    c ≠ ':' ∧ c ≠ 'v' ∧ c ≠ 'V' := by
  refine ⟨?_, ?_, ?_⟩ <;> rintro rfl <;> exact absurd h.1 (by decide)

/-! ### Splitting the scanning loops at chunk boundaries -/

lemma takeWhile_all_append (p : Char → Bool) :
    ∀ (xs ys : List Char), (∀ c ∈ xs, p c = true) →
      (xs ++ ys).takeWhile p = xs ++ ys.takeWhile p
  | [], ys, _ => by simp
  | x :: xs, ys, h => by
      have hx : p x = true := h x (by simp)
      simp only [List.cons_append, List.takeWhile_cons_of_pos hx]
      rw [takeWhile_all_append p xs ys (fun c hc => h c (by simp [hc]))]

lemma dropWhile_all_append (p : Char → Bool) :
    ∀ (xs ys : List Char), (∀ c ∈ xs, p c = true) →
      (xs ++ ys).dropWhile p = ys.dropWhile p
  | [], ys, _ => by simp
  | x :: xs, ys, h => by
      have hx : p x = true := h x (by simp)
      simp only [List.cons_append, List.dropWhile_cons_of_pos hx]
      exact dropWhile_all_append p xs ys (fun c hc => h c (by simp [hc]))

lemma convertNum_sep (c : Char) (rest : List Char)
    (h : isChunkChar c = false) :
    convertNum (c :: rest) = c :: convertNum rest := by
  rw [convertNum]
  simp [h]

lemma convertNum_chunk_digit (ls : List Char) (d : Char) (rest : List Char)
    (hne : ls ≠ []) (hall : ∀ c ∈ ls, isChunkChar c = true)
    (hd : isToneDigit d = true) (hdc : isChunkChar d = false) :
    convertNum (ls ++ d :: rest) =
      processChunkNum (ls ++ [d]) ++ convertNum rest := by
  obtain ⟨c, ls', rfl⟩ : ∃ c ls', ls = c :: ls' := by
    cases ls with
    | nil => exact absurd rfl hne
    | cons c ls' => exact ⟨c, ls', rfl⟩
  have hc : isChunkChar c = true := hall c (by simp)
  have hdrop : ((c :: ls') ++ d :: rest).dropWhile isChunkChar = d :: rest := by
    rw [dropWhile_all_append _ _ _ hall, List.dropWhile_cons_of_neg (by simp [hdc])]
  have htake : ((c :: ls') ++ d :: rest).takeWhile isChunkChar = c :: ls' := by
    rw [takeWhile_all_append _ _ _ hall, List.takeWhile_cons_of_neg (by simp [hdc])]
    simp
  rw [show (c :: ls') ++ d :: rest = c :: (ls' ++ d :: rest) from rfl]
  rw [convertNum]
  rw [dif_pos hc]
  split
  · rename_i d1 rest1 h1
    rw [← List.cons_append] at h1
    rw [hdrop] at h1
    cases h1
    rw [if_pos hd]
    rw [← List.cons_append, htake]
  · rename_i h1
    rw [← List.cons_append, hdrop] at h1
    cases h1

lemma convertNum_chunk_nodigit (ls : List Char) (rest : List Char)
    (hne : ls ≠ []) (hall : ∀ c ∈ ls, isChunkChar c = true)
    (hrest : rest = [] ∨ ∃ c' rest2, rest = c' :: rest2 ∧
      isChunkChar c' = false ∧ isToneDigit c' = false) :
    convertNum (ls ++ rest) = processChunkNum ls ++ convertNum rest := by
  obtain ⟨c, ls', rfl⟩ : ∃ c ls', ls = c :: ls' := by
    cases ls with
    | nil => exact absurd rfl hne
    | cons c ls' => exact ⟨c, ls', rfl⟩
  have hc : isChunkChar c = true := hall c (by simp)
  rcases hrest with rfl | ⟨c', rest2, rfl, hc', hd'⟩
  · rw [List.append_nil]
    have hdrop : (c :: ls').dropWhile isChunkChar = [] :=
      List.dropWhile_eq_nil_iff.2 (fun x hx => hall x hx)
    have htake : (c :: ls').takeWhile isChunkChar = c :: ls' := by
      induction ls' with
      | nil => simp [hc]
      | cons y ys ih => exact List.takeWhile_eq_self_iff.2 (fun a ha => hall a ha)
    rw [show convertNum [] = [] from by rw [convertNum], List.append_nil]
    rw [convertNum]
    split
    · split
      · rename_i d1 rest1 h2
        rw [hdrop] at h2
        cases h2
      · rw [htake]
    · rename_i hF
      exact absurd hc hF
  · have hdrop : ((c :: ls') ++ c' :: rest2).dropWhile isChunkChar = c' :: rest2 := by
      rw [dropWhile_all_append _ _ _ hall, List.dropWhile_cons_of_neg (by simp [hc'])]
    have htake : ((c :: ls') ++ c' :: rest2).takeWhile isChunkChar = c :: ls' := by
      rw [takeWhile_all_append _ _ _ hall, List.takeWhile_cons_of_neg (by simp [hc'])]
      simp
    rw [show (c :: ls') ++ c' :: rest2 = c :: (ls' ++ c' :: rest2) from rfl]
    rw [convertNum]
    rw [dif_pos hc]
    split
    · rename_i d1 rest1 h1
      rw [← List.cons_append] at h1
      rw [hdrop] at h1
      cases h1
      rw [if_neg (by simp [hd'])]
      rw [← List.cons_append, htake]
    · rename_i h1
      rw [← List.cons_append, hdrop] at h1
      cases h1

lemma convertTone_sep (neutral : NeutralStyle) (uml : UmlautStyle)
    (c : Char) (rest : List Char) (h : isChunkChar c = false) :
    convertTone neutral uml (c :: rest) = c :: convertTone neutral uml rest := by
  rw [convertTone]
  simp [h]

lemma convertTone_chunk_nodigit (neutral : NeutralStyle) (uml : UmlautStyle)
    (ls : List Char) (rest : List Char)
    (hne : ls ≠ []) (hall : ∀ c ∈ ls, isChunkChar c = true)
    (hrest : rest = [] ∨ ∃ c' rest2, rest = c' :: rest2 ∧
      isChunkChar c' = false ∧ isToneDigit c' = false) :
    convertTone neutral uml (ls ++ rest) =
      processChunkTone neutral uml ls ++ convertTone neutral uml rest := by
  obtain ⟨c, ls', rfl⟩ : ∃ c ls', ls = c :: ls' := by
    cases ls with
    | nil => exact absurd rfl hne
    | cons c ls' => exact ⟨c, ls', rfl⟩
  have hc : isChunkChar c = true := hall c (by simp)
  rcases hrest with rfl | ⟨c', rest2, rfl, hc', hd'⟩
  · rw [List.append_nil]
    have hdrop : (c :: ls').dropWhile isChunkChar = [] :=
      List.dropWhile_eq_nil_iff.2 (fun x hx => hall x hx)
    have htake : (c :: ls').takeWhile isChunkChar = c :: ls' := by
      induction ls' with
      | nil => simp [hc]
      | cons y ys ih => exact List.takeWhile_eq_self_iff.2 (fun a ha => hall a ha)
    rw [show convertTone neutral uml [] = [] from by rw [convertTone], List.append_nil]
    rw [convertTone]
    split
    · split
      · rename_i d1 rest1 h2
        rw [hdrop] at h2
        cases h2
      · rw [htake]
    · rename_i hF
      exact absurd hc hF
  · have hdrop : ((c :: ls') ++ c' :: rest2).dropWhile isChunkChar = c' :: rest2 := by
      rw [dropWhile_all_append _ _ _ hall, List.dropWhile_cons_of_neg (by simp [hc'])]
    have htake : ((c :: ls') ++ c' :: rest2).takeWhile isChunkChar = c :: ls' := by
      rw [takeWhile_all_append _ _ _ hall, List.takeWhile_cons_of_neg (by simp [hc'])]
      simp
    rw [show (c :: ls') ++ c' :: rest2 = c :: (ls' ++ c' :: rest2) from rfl]
    rw [convertTone]
    rw [dif_pos hc]
    split
    · rename_i d1 rest1 h1
      rw [← List.cons_append] at h1
      rw [hdrop] at h1
      cases h1
      rw [if_neg (by simp [hd'])]
      rw [← List.cons_append, htake]
    · rename_i h1
      rw [← List.cons_append, hdrop] at h1
      cases h1

end Hanflow.PinyinConvert

namespace Hanflow.PinyinConvert

/-! ### Umlaut normalization and style application -/

lemma replaceChar_id (a r : Char) (l : List Char) (h : ∀ c ∈ l, c ≠ a) :
    replaceChar a r l = l := by
  rw [replaceChar]
  have he : ∀ c ∈ l, (fun c => if c = a then r else c) c = id c := by
    intro c hc
    simp [h c hc]
  rw [List.map_congr_left he, List.map_id]

lemma replacePair_id (a r : Char) :
    ∀ l : List Char, (∀ c ∈ l, c ≠ ':') → replacePair a ':' r l = l
  | [], _ => rfl
  | [_], _ => rfl
  | x :: y :: rest, h => by
      rw [replacePair, if_neg (fun hxy => h y (by simp) hxy.2),
        replacePair_id a r (y :: rest) (fun c hc => h c (by simp at hc ⊢; tauto))]

lemma normalize_id (l : List Char)
    (h : ∀ c ∈ l, c ≠ ':' ∧ c ≠ 'v' ∧ c ≠ 'V') :
    _normalize_umlaut_in_num l = l := by
  rw [_normalize_umlaut_in_num,
    replacePair_id _ _ l (fun c hc => (h c hc).1),
    replacePair_id _ _ l (fun c hc => (h c hc).1),
    replaceChar_id _ _ l (fun c hc => (h c hc).2.1),
    replaceChar_id _ _ l (fun c hc => (h c hc).2.2)]

lemma normalize_id_letters (l : List Char) (h : ∀ c ∈ l, c ∈ pinyinLetters) :
    _normalize_umlaut_in_num l = l :=
  normalize_id l (fun c hc => (pinyinLetters_misc c (h c hc)).2.2)

lemma replacePair_skip (a b r x : Char) (zs : List Char)
    (h : ∀ y, zs.head? = some y → y ≠ b) :
    replacePair a b r (x :: zs) = x :: replacePair a b r zs := by
  cases zs with
  | nil => rfl
  | cons y rest =>
      rw [replacePair, if_neg (fun hxy => h y rfl hxy.2)]

lemma replacePair_skip_ne (a b r x : Char) (zs : List Char) (hx : x ≠ a) :
    replacePair a b r (x :: zs) = x :: replacePair a b r zs := by
  cases zs with
  | nil => rfl
  | cons y rest =>
      rw [replacePair, if_neg (fun hxy => hx hxy.1)]

lemma replacePair_append (a b r : Char) :
    ∀ (xs ys : List Char), (∀ y, ys.head? = some y → y ≠ b) →
      replacePair a b r (xs ++ ys) =
        replacePair a b r xs ++ replacePair a b r ys
  | [], ys, _ => by simp [replacePair]
  | [x], ys, h => by
      rw [List.singleton_append, replacePair_skip a b r x ys h]
      rfl
  | x1 :: x2 :: xs, ys, h => by
      rw [List.cons_append, List.cons_append, replacePair]
      by_cases h12 : x1 = a ∧ x2 = b
      · rw [if_pos h12, replacePair_append a b r xs ys h, replacePair,
          if_pos h12]
        rfl
      · rw [if_neg h12, show x2 :: (xs ++ ys) = (x2 :: xs) ++ ys from rfl,
          replacePair_append a b r (x2 :: xs) ys h,
          show replacePair a b r (x1 :: x2 :: xs) =
            x1 :: replacePair a b r (x2 :: xs) from by
              rw [replacePair, if_neg h12]]
        rfl

lemma replacePair_head_ne (a r : Char) (hr : r ≠ ':') (l : List Char)
    (h : ∀ y, l.head? = some y → y ≠ ':') :
    ∀ y, (replacePair a ':' r l).head? = some y → y ≠ ':' := by
  cases l with
  | nil => intro y hy; simp [replacePair] at hy
  | cons x zs =>
      cases zs with
      | nil => simpa [replacePair] using h
      | cons x2 rest =>
          rw [replacePair]
          by_cases h12 : x = a ∧ x2 = ':'
          · rw [if_pos h12]
            intro y hy
            simp at hy
            rw [← hy]
            exact hr
          · rw [if_neg h12]
            intro y hy
            simp at hy
            rw [← hy]
            exact h x rfl

lemma normalize_append (xs ys : List Char)
    (h : ∀ y, ys.head? = some y → y ≠ ':') :
    _normalize_umlaut_in_num (xs ++ ys) =
      _normalize_umlaut_in_num xs ++ _normalize_umlaut_in_num ys := by
  simp only [_normalize_umlaut_in_num]
  rw [replacePair_append 'u' ':' 'ü' xs ys h,
    replacePair_append 'U' ':' 'Ü' _ _
      (replacePair_head_ne 'u' 'ü' (by decide) ys h)]
  simp only [replaceChar, List.map_append]

lemma expandChar_append (a : Char) (rs : List Char) :
    ∀ xs ys : List Char,
      expandChar a rs (xs ++ ys) = expandChar a rs xs ++ expandChar a rs ys
  | [], _ => rfl
  | x :: xs, ys => by
      rw [List.cons_append, expandChar, expandChar,
        expandChar_append a rs xs ys, List.append_assoc]

end Hanflow.PinyinConvert

namespace Hanflow.PinyinConvert

lemma expand2_head (l : List Char) (h : ∀ c ∈ l, c ∈ pinyinLetters) :
    ∀ y, (expandChar 'Ü' ['U', ':'] l).head? = some y → y ≠ ':' := by
  cases l with
  | nil => intro y hy; simp [expandChar] at hy
  | cons c t =>
      intro y hy
      rw [expandChar] at hy
      by_cases hc : c = 'Ü'
      · rw [if_pos hc] at hy
        simp at hy
        rw [← hy]
        decide
      · rw [if_neg hc] at hy
        simp at hy
        rw [← hy]
        exact (pinyinLetters_misc c (h c (by simp))).2.2.1

lemma expand12_head (l : List Char) (h : ∀ c ∈ l, c ∈ pinyinLetters) :
    ∀ y, (expandChar 'Ü' ['U', ':']
      (expandChar 'ü' ['u', ':'] l)).head? = some y → y ≠ ':' := by
  cases l with
  | nil => intro y hy; simp [expandChar] at hy
  | cons c t =>
      intro y hy
      rw [show expandChar 'ü' ['u', ':'] (c :: t) =
        (if c = 'ü' then ['u', ':'] else [c]) ++ expandChar 'ü' ['u', ':'] t
        from rfl] at hy
      by_cases hc : c = 'ü'
      · rw [if_pos hc] at hy
        rw [show (['u', ':'] : List Char) ++ expandChar 'ü' ['u', ':'] t =
          'u' :: ':' :: expandChar 'ü' ['u', ':'] t from rfl] at hy
        rw [show expandChar 'Ü' ['U', ':']
            ('u' :: ':' :: expandChar 'ü' ['u', ':'] t) =
          'u' :: expandChar 'Ü' ['U', ':'] (':' :: expandChar 'ü' ['u', ':'] t)
          from by rw [expandChar]; rfl] at hy
        simp at hy
        rw [← hy]
        decide
      · rw [if_neg hc] at hy
        rw [List.singleton_append] at hy
        rw [expandChar] at hy
        by_cases hc2 : c = 'Ü'
        · rw [if_pos hc2] at hy
          simp at hy
          rw [← hy]
          decide
        · rw [if_neg hc2] at hy
          simp at hy
          rw [← hy]
          exact (pinyinLetters_misc c (h c (by simp))).2.2.1

lemma stage1_expand :
    ∀ l : List Char, (∀ c ∈ l, c ∈ pinyinLetters) →
      replacePair 'u' ':' 'ü'
        (expandChar 'Ü' ['U', ':'] (expandChar 'ü' ['u', ':'] l)) =
      expandChar 'Ü' ['U', ':'] l
  | [], _ => rfl
  | c :: t, h => by
      have ht : ∀ c' ∈ t, c' ∈ pinyinLetters := fun c' hc' => h c' (by simp [hc'])
      have ih := stage1_expand t ht
      by_cases h1 : c = 'ü'
      · subst h1
        rw [show expandChar 'ü' ['u', ':'] ('ü' :: t) =
          'u' :: ':' :: expandChar 'ü' ['u', ':'] t from by rw [expandChar]; rfl]
        rw [show expandChar 'Ü' ['U', ':']
            ('u' :: ':' :: expandChar 'ü' ['u', ':'] t) =
          'u' :: ':' :: expandChar 'Ü' ['U', ':'] (expandChar 'ü' ['u', ':'] t)
          from by rw [expandChar, expandChar]; rfl]
        rw [replacePair, if_pos (by decide), ih]
        rw [show expandChar 'Ü' ['U', ':'] ('ü' :: t) =
          'ü' :: expandChar 'Ü' ['U', ':'] t from by rw [expandChar]; rfl]
      · by_cases h2 : c = 'Ü'
        · subst h2
          rw [show expandChar 'ü' ['u', ':'] ('Ü' :: t) =
            'Ü' :: expandChar 'ü' ['u', ':'] t from by rw [expandChar]; rfl]
          rw [show expandChar 'Ü' ['U', ':']
              ('Ü' :: expandChar 'ü' ['u', ':'] t) =
            'U' :: ':' :: expandChar 'Ü' ['U', ':'] (expandChar 'ü' ['u', ':'] t)
            from by rw [expandChar]; rfl]
          rw [replacePair_skip_ne 'u' ':' 'ü' 'U' _ (by decide),
            replacePair_skip_ne 'u' ':' 'ü' ':' _ (by decide), ih]
          rw [show expandChar 'Ü' ['U', ':'] ('Ü' :: t) =
            'U' :: ':' :: expandChar 'Ü' ['U', ':'] t from by rw [expandChar]; rfl]
        · rw [show expandChar 'ü' ['u', ':'] (c :: t) =
            c :: expandChar 'ü' ['u', ':'] t from by
              rw [expandChar, if_neg h1]; rfl]
          rw [show expandChar 'Ü' ['U', ':']
              (c :: expandChar 'ü' ['u', ':'] t) =
            c :: expandChar 'Ü' ['U', ':'] (expandChar 'ü' ['u', ':'] t)
            from by rw [expandChar, if_neg h2]; rfl]
          by_cases h3 : c = 'u'
          · subst h3
            rw [replacePair_skip 'u' ':' 'ü' 'u' _ (expand12_head t ht), ih]
            rw [show expandChar 'Ü' ['U', ':'] ('u' :: t) =
              'u' :: expandChar 'Ü' ['U', ':'] t from by rw [expandChar]; rfl]
          · rw [replacePair_skip_ne 'u' ':' 'ü' c _ h3, ih]
            rw [show expandChar 'Ü' ['U', ':'] (c :: t) =
              c :: expandChar 'Ü' ['U', ':'] t from by
                rw [expandChar, if_neg h2]; rfl]

lemma stage2_expand :
    ∀ l : List Char, (∀ c ∈ l, c ∈ pinyinLetters) →
      replacePair 'U' ':' 'Ü' (expandChar 'Ü' ['U', ':'] l) = l
  | [], _ => rfl
  | c :: t, h => by
      have ht : ∀ c' ∈ t, c' ∈ pinyinLetters := fun c' hc' => h c' (by simp [hc'])
      have ih := stage2_expand t ht
      by_cases h1 : c = 'Ü'
      · subst h1
        rw [show expandChar 'Ü' ['U', ':'] ('Ü' :: t) =
          'U' :: ':' :: expandChar 'Ü' ['U', ':'] t from by rw [expandChar]; rfl]
        rw [replacePair, if_pos (by decide), ih]
      · rw [show expandChar 'Ü' ['U', ':'] (c :: t) =
          c :: expandChar 'Ü' ['U', ':'] t from by
            rw [expandChar, if_neg h1]; rfl]
        by_cases h2 : c = 'U'
        · subst h2
          rw [replacePair_skip 'U' ':' 'Ü' 'U' _ (expand2_head t ht), ih]
        · rw [replacePair_skip_ne 'U' ':' 'Ü' c _ h2, ih]

lemma normalize_applyStyle (uml : UmlautStyle) (l : List Char)
    (h : ∀ c ∈ l, c ∈ pinyinLetters) :
    _normalize_umlaut_in_num (_apply_umlaut_style_num uml l) = l := by
  cases uml with
  | ue => exact normalize_id_letters l h
  | ucolon =>
      rw [_apply_umlaut_style_num, _normalize_umlaut_in_num,
        stage1_expand l h, stage2_expand l h,
        replaceChar_id _ _ l (fun c hc => (pinyinLetters_misc c (h c hc)).2.2.2.1),
        replaceChar_id _ _ l (fun c hc => (pinyinLetters_misc c (h c hc)).2.2.2.2)]
  | v =>
      rw [_apply_umlaut_style_num, _normalize_umlaut_in_num]
      have hnc : ∀ c' ∈ replaceChar 'Ü' 'V' (replaceChar 'ü' 'v' l), c' ≠ ':' := by
        intro c' hc'
        simp only [replaceChar, List.map_map, List.mem_map] at hc'
        obtain ⟨c, hc, rfl⟩ := hc'
        revert hc
        have : ∀ c ∈ pinyinLetters,
            (fun c => if c = 'Ü' then 'V' else c)
              ((fun c => if c = 'ü' then 'v' else c) c) ≠ ':' := by decide
        intro hc
        exact this c (h c hc)
      rw [replacePair_id _ _ _ hnc, replacePair_id _ _ _ hnc]
      simp only [replaceChar, List.map_map]
      have he : ∀ c ∈ l,
          ((fun c => if c = 'V' then 'Ü' else c) ∘
           (fun c => if c = 'v' then 'ü' else c) ∘
           (fun c => if c = 'Ü' then 'V' else c) ∘
           (fun c => if c = 'ü' then 'v' else c)) c = id c := by
        intro c hc
        have : ∀ c ∈ pinyinLetters,
            ((fun c => if c = 'V' then 'Ü' else c) ∘
             (fun c => if c = 'v' then 'ü' else c) ∘
             (fun c => if c = 'Ü' then 'V' else c) ∘
             (fun c => if c = 'ü' then 'v' else c)) c = id c := by decide
        exact this c (h c hc)
      rw [List.map_congr_left he, List.map_id]

end Hanflow.PinyinConvert

namespace Hanflow.PinyinConvert

/-! ### Index lemmas for the vowel-selection searches -/

lemma findChar_spec : ∀ (l : List Char) (a : Char) (i : Nat),
    findChar l a = some i →
      l.get? i = some a ∧ ∀ j < i, l.get? j ≠ some a
  | [], a, i => by simp [findChar]
  | x :: rest, a, i => by
      rw [findChar]
      by_cases hx : x = a
      · rw [if_pos hx]
        intro h
        cases h
        exact ⟨by simp [hx], fun j hj => absurd hj (by omega)⟩
      · rw [if_neg hx]
        intro h
        cases hf : findChar rest a with
        | none => rw [hf] at h; cases h
        | some i' =>
            rw [hf] at h
            simp only [Option.map_some'] at h
            cases h
            obtain ⟨h1, h2⟩ := findChar_spec rest a i' hf
            refine ⟨h1, fun j hj => ?_⟩
            cases j with
            | zero =>
                simp only [List.get?_cons_zero]
                exact fun he => hx (by injection he)
            | succ j' => exact h2 j' (by omega)

lemma findChar_none : ∀ (l : List Char) (a : Char),
    findChar l a = none → a ∉ l
  | [], a, _ => by simp
  | x :: rest, a, h => by
      rw [findChar] at h
      by_cases hx : x = a
      · rw [if_pos hx] at h; cases h
      · rw [if_neg hx] at h
        cases hf : findChar rest a with
        | none =>
            have hrest := findChar_none rest a hf
            intro hmem
            rcases List.mem_cons.1 hmem with rfl | hmem'
            · exact hx rfl
            · exact hrest hmem'
        | some i' => rw [hf] at h; cases h

lemma findPair_spec : ∀ (l : List Char) (a b : Char) (i : Nat),
    findPair l a b = some i →
      l.get? i = some a ∧ l.get? (i + 1) = some b
  | [], _, _, _ => by simp [findPair]
  | [_], _, _, _ => by simp [findPair]
  | x :: y :: rest, a, b, i => by
      rw [findPair]
      by_cases hxy : x = a ∧ y = b
      · rw [if_pos hxy]
        intro h
        cases h
        exact ⟨by simp [hxy.1], by simp [hxy.2]⟩
      · rw [if_neg hxy]
        intro h
        cases hf : findPair (y :: rest) a b with
        | none => rw [hf] at h; cases h
        | some i' =>
            rw [hf] at h
            simp only [Option.map_some'] at h
            cases h
            exact findPair_spec (y :: rest) a b i' hf

lemma findPair_none : ∀ (l : List Char) (a b : Char),
    findPair l a b = none →
      ∀ j, ¬(l.get? j = some a ∧ l.get? (j + 1) = some b)
  | [], _, _, _ => by simp
  | [x], a, b, _ => by
      intro j ⟨h1, h2⟩
      cases j with
      | zero => simp at h2
      | succ j' => simp at h1
  | x :: y :: rest, a, b, h => by
      rw [findPair] at h
      by_cases hxy : x = a ∧ y = b
      · rw [if_pos hxy] at h; cases h
      · rw [if_neg hxy] at h
        cases hf : findPair (y :: rest) a b with
        | none =>
            intro j
            cases j with
            | zero =>
                rintro ⟨h1, h2⟩
                simp at h1 h2
                exact hxy ⟨h1, h2⟩
            | succ j' => exact findPair_none (y :: rest) a b hf j'
        | some i' => rw [hf] at h; cases h

lemma rfindPair_spec : ∀ (l : List Char) (a b : Char) (i : Nat),
    rfindPair l a b = some i →
      l.get? i = some a ∧ l.get? (i + 1) = some b
  | [], _, _, _ => by simp [rfindPair]
  | [_], _, _, _ => by simp [rfindPair]
  | x :: y :: rest, a, b, i => by
      rw [rfindPair]
      cases hf : rfindPair (y :: rest) a b with
      | some i' =>
          intro h
          cases h
          exact rfindPair_spec (y :: rest) a b i' hf
      | none =>
          by_cases hxy : x = a ∧ y = b
          · rw [if_pos hxy]
            intro h
            cases h
            exact ⟨by simp [hxy.1], by simp [hxy.2]⟩
          · rw [if_neg hxy]
            intro h
            cases h

lemma rfindPair_none : ∀ (l : List Char) (a b : Char),
    rfindPair l a b = none →
      ∀ j, ¬(l.get? j = some a ∧ l.get? (j + 1) = some b)
  | [], _, _, _ => by simp
  | [x], a, b, _ => by
      intro j ⟨h1, h2⟩
      cases j with
      | zero => simp at h2
      | succ j' => simp at h1
  | x :: y :: rest, a, b, h => by
      rw [rfindPair] at h
      cases hf : rfindPair (y :: rest) a b with
      | some i' => rw [hf] at h; cases h
      | none =>
          rw [hf] at h
          by_cases hxy : x = a ∧ y = b
          · rw [if_pos hxy] at h; cases h
          · intro j
            cases j with
            | zero =>
                rintro ⟨h1, h2⟩
                simp at h1 h2
                exact hxy ⟨h1, h2⟩
            | succ j' => exact rfindPair_none (y :: rest) a b hf j'

lemma lastVowelIdx_none : ∀ (l : List Char),
    lastVowelIdx l = none → ∀ c ∈ l, isVowelAll c = false
  | [], _ => by simp
  | x :: rest, h => by
      rw [lastVowelIdx] at h
      cases hf : lastVowelIdx rest with
      | some i' => rw [hf] at h; cases h
      | none =>
          rw [hf] at h
          by_cases hx : isVowelAll x = true
          · rw [if_pos hx] at h; cases h
          · intro c hc
            rcases List.mem_cons.1 hc with rfl | hc'
            · simpa using hx
            · exact lastVowelIdx_none rest hf c hc'

lemma lastVowelIdx_spec : ∀ (l : List Char) (i : Nat),
    lastVowelIdx l = some i →
      (∃ c, l.get? i = some c ∧ isVowelAll c = true) ∧
      ∀ j c', i < j → l.get? j = some c' → isVowelAll c' = false
  | [], i => by simp [lastVowelIdx]
  | x :: rest, i => by
      rw [lastVowelIdx]
      cases hf : lastVowelIdx rest with
      | some i' =>
          intro h
          cases h
          obtain ⟨⟨c, hc, hcv⟩, hmax⟩ := lastVowelIdx_spec rest i' hf
          refine ⟨⟨c, by simpa using hc, hcv⟩, ?_⟩
          intro j c' hj hj'
          cases j with
          | zero => omega
          | succ j' => exact hmax j' c' (by omega) (by simpa using hj')
      | none =>
          by_cases hx : isVowelAll x = true
          · rw [if_pos hx]
            intro h
            cases h
            refine ⟨⟨x, rfl, hx⟩, ?_⟩
            intro j c' hj hj'
            cases j with
            | zero => omega
            | succ j' =>
                have hrest := lastVowelIdx_none rest hf
                have : c' ∈ rest := List.get?_mem (by simpa using hj')
                exact hrest c' this
          · rw [if_neg hx]
            intro h
            cases h

end Hanflow.PinyinConvert

namespace Hanflow.PinyinConvert

lemma get?_map_lower (ls : List Char) (i : Nat) (v : Char)
    (h : (ls.map pyLowerChar).get? i = some v) :
    ∃ c, ls.get? i = some c ∧ pyLowerChar c = v := by
  rw [List.get?_map] at h
  cases hg : ls.get? i with
  | none => rw [hg] at h; cases h
  | some c =>
      rw [hg] at h
      simp only [Option.map_some'] at h
      exact ⟨c, rfl, by injection h⟩

lemma tone_target_spec (ls : List Char) (hlet : ∀ c ∈ ls, c ∈ pinyinLetters)
    (hvow : ∃ c ∈ ls, isVowelAll c = true) :
    ∃ i base row, _tone_target_index ls = some i ∧ ls.get? i = some base ∧
      toneMarksLookup base = some row := by
  cases hiu : rfindPair (ls.map pyLowerChar) 'i' 'u' with
  | some j =>
      have hsp := rfindPair_spec _ 'i' 'u' j hiu
      obtain ⟨c, hc, hcl⟩ := get?_map_lower ls (j + 1) 'u' hsp.2
      obtain ⟨row, hrow⟩ := Option.isSome_iff_exists.1
        (lower_vowel_markable c (hlet c (List.get?_mem hc)) 'u' (by decide) hcl)
      exact ⟨j + 1, c, row, by simp only [_tone_target_index, hiu], hc, hrow⟩
  | none =>
  cases hui : rfindPair (ls.map pyLowerChar) 'u' 'i' with
  | some j =>
      have hsp := rfindPair_spec _ 'u' 'i' j hui
      obtain ⟨c, hc, hcl⟩ := get?_map_lower ls (j + 1) 'i' hsp.2
      obtain ⟨row, hrow⟩ := Option.isSome_iff_exists.1
        (lower_vowel_markable c (hlet c (List.get?_mem hc)) 'i' (by decide) hcl)
      exact ⟨j + 1, c, row,
        by simp only [_tone_target_index, hiu, hui], hc, hrow⟩
  | none =>
  cases ha : findChar (ls.map pyLowerChar) 'a' with
  | some j =>
      have hsp := (findChar_spec _ 'a' j ha).1
      obtain ⟨c, hc, hcl⟩ := get?_map_lower ls j 'a' hsp
      obtain ⟨row, hrow⟩ := Option.isSome_iff_exists.1
        (lower_vowel_markable c (hlet c (List.get?_mem hc)) 'a' (by decide) hcl)
      exact ⟨j, c, row,
        by simp only [_tone_target_index, hiu, hui, ha], hc, hrow⟩
  | none =>
  cases he2 : findChar (ls.map pyLowerChar) 'e' with
  | some j =>
      have hsp := (findChar_spec _ 'e' j he2).1
      obtain ⟨c, hc, hcl⟩ := get?_map_lower ls j 'e' hsp
      obtain ⟨row, hrow⟩ := Option.isSome_iff_exists.1
        (lower_vowel_markable c (hlet c (List.get?_mem hc)) 'e' (by decide) hcl)
      exact ⟨j, c, row,
        by simp only [_tone_target_index, hiu, hui, ha, he2], hc, hrow⟩
  | none =>
  cases hou : findPair (ls.map pyLowerChar) 'o' 'u' with
  | some j =>
      have hsp := (findPair_spec _ 'o' 'u' j hou).1
      obtain ⟨c, hc, hcl⟩ := get?_map_lower ls j 'o' hsp
      obtain ⟨row, hrow⟩ := Option.isSome_iff_exists.1
        (lower_vowel_markable c (hlet c (List.get?_mem hc)) 'o' (by decide) hcl)
      exact ⟨j, c, row,
        by simp only [_tone_target_index, hiu, hui, ha, he2, hou], hc, hrow⟩
  | none =>
  cases hlast : lastVowelIdx ls with
  | some j =>
      obtain ⟨⟨c, hc, hcv⟩, _⟩ := lastVowelIdx_spec ls j hlast
      have hcmem : c ∈ _VOWELS_ALL := by simpa [isVowelAll] using hcv
      obtain ⟨row, hrow⟩ := Option.isSome_iff_exists.1 (vowels_markable c hcmem)
      exact ⟨j, c, row,
        by simp only [_tone_target_index, hiu, hui, ha, he2, hou, hlast],
        hc, hrow⟩
  | none =>
      exfalso
      obtain ⟨c, hcmem, hcv⟩ := hvow
      rw [lastVowelIdx_none ls hlast c hcmem] at hcv
      cases hcv

end Hanflow.PinyinConvert

namespace Hanflow.PinyinConvert

lemma getLast?_mem_self (l : List Char) (c : Char) (h : l.getLast? = some c) :
    c ∈ l := by
  obtain ⟨hne, heq⟩ := List.mem_getLast?_eq_getLast (show c ∈ l.getLast? from h)
  rw [heq]
  exact List.getLast_mem hne

lemma markAt_eq (ls : List Char) (t i : Nat) (base : Char) (row : List Char)
    (hidx : _tone_target_index ls = some i) (hget : ls.get? i = some base)
    (hrow : toneMarksLookup base = some row) :
    markAt ls t = ls.take i ++ [row.getD t base] ++ ls.drop (i + 1) := by
  simp only [markAt, hidx, hget, hrow]

lemma processChunkNum_tone (ls : List Char) (t : Nat)
    (hne : ls ≠ []) (hlet : ∀ c ∈ ls, c ∈ pinyinLetters)
    (h1 : 1 ≤ t) (h4 : t ≤ 4) :
    processChunkNum (ls ++ [natToDigit t]) = markAt ls t := by
  obtain ⟨hdig, hval, _⟩ := toneDigit_facts t (tone_mem_of_le' t h1 (by omega))
  have hcond : ¬(t = 0 ∨ t = 5 ∨ ls = []) := by
    push_neg
    exact ⟨by omega, by omega, hne⟩
  rw [processChunkNum]
  simp only [List.getLast?_concat, hdig, if_pos, List.dropLast_concat, hval,
    normalize_id_letters ls hlet, hcond, if_neg, markAt, if_false]

lemma processChunkNum_neutral_omit (ls : List Char)
    (hne : ls ≠ []) (hlet : ∀ c ∈ ls, c ∈ pinyinLetters) :
    processChunkNum ls = ls := by
  cases hl : ls.getLast? with
  | none => exact absurd (List.getLast?_eq_none_iff.1 hl) hne
  | some c =>
      have hnd : c.isDigit = false :=
        (pinyinLetters_misc c (hlet c (getLast?_mem_self ls c hl))).1
      rw [processChunkNum]
      simp only [hl, hnd, Bool.false_eq_true, if_false,
        normalize_id_letters ls hlet]
      simp

lemma processChunkNum_neutral_five (ls : List Char)
    (hlet : ∀ c ∈ ls, c ∈ pinyinLetters) :
    processChunkNum (ls ++ ['5']) = ls := by
  rw [processChunkNum]
  simp only [List.getLast?_concat, show ('5').isDigit = true from rfl,
    if_pos, List.dropLast_concat, show digitToNat '5' = 5 from rfl,
    normalize_id_letters ls hlet]
  simp

end Hanflow.PinyinConvert

namespace Hanflow.PinyinConvert

lemma noAdjSyl_cons (it : NumItem) (rest : List NumItem)
    (h : noAdjSyl (it :: rest) = true) :
    noAdjSyl rest = true ∧
      ∀ b, rest.head? = some b → ¬(it.isSyl = true ∧ b.isSyl = true) := by
  cases rest with
  | nil => exact ⟨rfl, by simp⟩
  | cons b rest2 =>
      rw [noAdjSyl] at h
      simp only [Bool.and_eq_true, Bool.not_eq_true'] at h
      refine ⟨h.2, ?_⟩
      intro b' hb'
      simp only [List.head?_cons, Option.some.injEq] at hb'
      subst hb'
      rintro ⟨h1, h2⟩
      rw [h1, h2] at h
      simp at h

lemma validItems_cons (neutral : NeutralStyle) (it : NumItem)
    (rest : List NumItem) (h : ValidItems neutral (it :: rest)) :
    ValidItem neutral it ∧ ValidItems neutral rest ∧
      (∀ b, rest.head? = some b → ¬(it.isSyl = true ∧ b.isSyl = true)) := by
  obtain ⟨hall, hchain⟩ := h
  obtain ⟨h1, h2⟩ := noAdjSyl_cons it rest hchain
  exact ⟨hall it (by simp),
    ⟨fun x hx => hall x (by simp [hx]), h1⟩, h2⟩

lemma convertNum_render (neutral : NeutralStyle) :
    ∀ items : List NumItem, ValidItems neutral items →
      convertNum (renderNum .ue items) = renderMarked items
  | [], _ => by rw [renderNum, renderMarked, convertNum]
  | .sep c :: rest, h => by
      obtain ⟨hit, hrest, _⟩ := validItems_cons neutral _ rest h
      rw [renderNum, renderMarked, convertNum_sep c _ hit.1,
        convertNum_render neutral rest hrest]
  | .syl ls t :: rest, h => by
      obtain ⟨hit, hrest, hadj⟩ := validItems_cons neutral _ rest h
      obtain ⟨⟨hne, hlet, hvow⟩, htone⟩ := hit
      have hallchunk : ∀ c ∈ ls, isChunkChar c = true :=
        fun c hc => pinyinLetters_chunk c (hlet c hc)
      have hrsh : renderNum .ue rest = [] ∨
          ∃ c' rest2, renderNum .ue rest = c' :: rest2 ∧
            isChunkChar c' = false ∧ isToneDigit c' = false := by
        cases rest with
        | nil => exact Or.inl rfl
        | cons it2 rest2 =>
            cases it2 with
            | sep c' =>
                have hsep : ValidSepChar c' := hrest.1 (.sep c') (by simp)
                exact Or.inr ⟨c', renderNum .ue rest2, by rw [renderNum],
                  hsep.1, hsep.2⟩
            | syl ls2 t2 => exact absurd ⟨rfl, rfl⟩ (hadj (.syl ls2 t2) rfl)
      rcases htone with ⟨h1, h4⟩ | ⟨rfl, _⟩ | ⟨rfl, _⟩
      · obtain ⟨_, _, htd, htc, _⟩ :=
          toneDigit_facts t (tone_mem_of_le' t h1 (by omega))
        rw [renderNum, renderSyl]
        rw [show _apply_umlaut_style_num .ue ls = ls from rfl]
        rw [if_neg (by omega), List.append_assoc,
          show ([natToDigit t] ++ renderNum .ue rest) =
            natToDigit t :: renderNum .ue rest from rfl]
        rw [convertNum_chunk_digit ls (natToDigit t) _ hne hallchunk htd htc]
        rw [processChunkNum_tone ls t hne hlet h1 h4]
        rw [renderMarked, markedSyl, if_pos ⟨h1, h4⟩]
        rw [convertNum_render neutral rest hrest]
      · rw [renderNum, renderSyl]
        rw [show _apply_umlaut_style_num .ue ls = ls from rfl]
        rw [if_pos rfl, List.append_nil]
        rw [convertNum_chunk_nodigit ls _ hne hallchunk hrsh]
        rw [processChunkNum_neutral_omit ls hne hlet]
        rw [renderMarked, markedSyl, if_neg (by omega)]
        rw [convertNum_render neutral rest hrest]
      · rw [renderNum, renderSyl]
        rw [show _apply_umlaut_style_num .ue ls = ls from rfl]
        rw [if_neg (by omega), List.append_assoc,
          show ([natToDigit 5] ++ renderNum .ue rest) =
            '5' :: renderNum .ue rest from rfl]
        rw [convertNum_chunk_digit ls '5' _ hne hallchunk (by decide) (by decide)]
        rw [show ls ++ ['5'] = ls ++ [natToDigit 5] from rfl]
        rw [show (natToDigit 5) = '5' from rfl]
        rw [processChunkNum_neutral_five ls hlet]
        rw [renderMarked, markedSyl, if_neg (by omega)]
        rw [convertNum_render neutral rest hrest]

end Hanflow.PinyinConvert

namespace Hanflow.PinyinConvert

lemma applyStyle_cons (uml : UmlautStyle) (c : Char) (t : List Char)
    (h : ∀ x ∈ c :: t, x ∈ pinyinLetters) :
    ∃ y zs, _apply_umlaut_style_num uml (c :: t) = y :: zs ∧ y ≠ ':' := by
  cases uml with
  | ue =>
      exact ⟨c, t, rfl, (pinyinLetters_misc c (h c (by simp))).2.2.1⟩
  | ucolon =>
      by_cases h1 : c = 'ü'
      · subst h1
        refine ⟨'u', ':' :: expandChar 'Ü' ['U', ':']
          (expandChar 'ü' ['u', ':'] t), ?_, by decide⟩
        rw [_apply_umlaut_style_num,
          show expandChar 'ü' ['u', ':'] ('ü' :: t) =
            'u' :: ':' :: expandChar 'ü' ['u', ':'] t from by
              rw [expandChar]; rfl,
          show expandChar 'Ü' ['U', ':']
              ('u' :: ':' :: expandChar 'ü' ['u', ':'] t) =
            'u' :: ':' :: expandChar 'Ü' ['U', ':']
              (expandChar 'ü' ['u', ':'] t) from by
                rw [expandChar, expandChar]; rfl]
      · by_cases h2 : c = 'Ü'
        · subst h2
          refine ⟨'U', ':' :: expandChar 'Ü' ['U', ':']
            (expandChar 'ü' ['u', ':'] t), ?_, by decide⟩
          rw [_apply_umlaut_style_num,
            show expandChar 'ü' ['u', ':'] ('Ü' :: t) =
              'Ü' :: expandChar 'ü' ['u', ':'] t from by
                rw [expandChar]; rfl,
            show expandChar 'Ü' ['U', ':']
                ('Ü' :: expandChar 'ü' ['u', ':'] t) =
              'U' :: ':' :: expandChar 'Ü' ['U', ':']
                (expandChar 'ü' ['u', ':'] t) from by
                  rw [expandChar]; rfl]
        · refine ⟨c, expandChar 'Ü' ['U', ':'] (expandChar 'ü' ['u', ':'] t),
            ?_, (pinyinLetters_misc c (h c (by simp))).2.2.1⟩
          rw [_apply_umlaut_style_num,
            show expandChar 'ü' ['u', ':'] (c :: t) =
              c :: expandChar 'ü' ['u', ':'] t from by
                rw [expandChar, if_neg h1]; rfl,
            show expandChar 'Ü' ['U', ':']
                (c :: expandChar 'ü' ['u', ':'] t) =
              c :: expandChar 'Ü' ['U', ':']
                (expandChar 'ü' ['u', ':'] t) from by
                  rw [expandChar, if_neg h2]; rfl]
  | v =>
      refine ⟨(fun c => if c = 'Ü' then 'V' else c)
          ((fun c => if c = 'ü' then 'v' else c) c),
        (replaceChar 'Ü' 'V' (replaceChar 'ü' 'v' t)), ?_, ?_⟩
      · rw [_apply_umlaut_style_num, replaceChar, replaceChar,
          List.map_cons, List.map_cons]
        rfl
      · have : ∀ x ∈ pinyinLetters,
            (fun c => if c = 'Ü' then 'V' else c)
              ((fun c => if c = 'ü' then 'v' else c) x) ≠ ':' := by decide
        exact this c (h c (by simp))

lemma renderNum_head_ne_colon (uml : UmlautStyle) (neutral : NeutralStyle) :
    ∀ items : List NumItem, ValidItems neutral items →
      ∀ y, (renderNum uml items).head? = some y → y ≠ ':'
  | [], _, y => by simp [renderNum]
  | .sep c :: rest, h, y => by
      rw [renderNum]
      intro hy
      simp at hy
      rw [← hy]
      exact (sepChar_facts c ((validItems_cons neutral _ rest h).1)).1
  | .syl ls t :: rest, h, y => by
      obtain ⟨⟨hne, hlet, _⟩, _⟩ := (validItems_cons neutral _ rest h).1
      obtain ⟨c, ls', rfl⟩ : ∃ c ls', ls = c :: ls' := by
        cases ls with
        | nil => exact absurd rfl hne
        | cons c ls' => exact ⟨c, ls', rfl⟩
      obtain ⟨y', zs, heq, hy'⟩ := applyStyle_cons uml c ls' hlet
      rw [renderNum, renderSyl, heq]
      intro hy
      simp at hy
      rw [← hy]
      exact hy'

lemma validTone_cases (neutral : NeutralStyle) (t : Nat)
    (h : ValidTone neutral t) :
    t = 0 ∨ t ∈ ([1, 2, 3, 4, 5] : List Nat) := by
  rcases h with ⟨h1, h4⟩ | ⟨rfl, _⟩ | ⟨rfl, _⟩
  · exact Or.inr (tone_mem_of_le' t h1 (by omega))
  · exact Or.inl rfl
  · exact Or.inr (by decide)

lemma normalize_renderSyl (uml : UmlautStyle) (ls : List Char) (t : Nat)
    (hlet : ∀ c ∈ ls, c ∈ pinyinLetters)
    (htz : t = 0 ∨ t ∈ ([1, 2, 3, 4, 5] : List Nat)) :
    _normalize_umlaut_in_num (renderSyl uml ls t) = renderSyl .ue ls t := by
  rcases htz with rfl | hmem
  · rw [renderSyl, renderSyl, if_pos rfl, List.append_nil, List.append_nil,
      normalize_applyStyle uml ls hlet]
    rfl
  · have hnz : t ≠ 0 := by
      simp at hmem
      omega
    obtain ⟨_, _, _, _, hc1, hc2, hc3⟩ := toneDigit_facts t hmem
    rw [renderSyl, renderSyl, if_neg hnz,
      normalize_append _ [natToDigit t]
        (by intro y hy; simp at hy; rw [← hy]; exact hc1),
      normalize_applyStyle uml ls hlet,
      normalize_id [natToDigit t]
        (by intro x hx; simp at hx; rw [hx]; exact ⟨hc1, hc2, hc3⟩)]
    rfl

lemma normalize_render (uml : UmlautStyle) (neutral : NeutralStyle) :
    ∀ items : List NumItem, ValidItems neutral items →
      _normalize_umlaut_in_num (renderNum uml items) = renderNum .ue items
  | [], _ => rfl
  | .sep c :: rest, h => by
      obtain ⟨hit, hrest, _⟩ := validItems_cons neutral _ rest h
      rw [show renderNum uml (.sep c :: rest) =
        [c] ++ renderNum uml rest from rfl]
      rw [normalize_append [c] _
        (renderNum_head_ne_colon uml neutral rest hrest)]
      rw [normalize_id [c]
        (by intro x hx; simp at hx; rw [hx]; exact sepChar_facts c hit)]
      rw [normalize_render uml neutral rest hrest]
      rfl
  | .syl ls t :: rest, h => by
      obtain ⟨hit, hrest, _⟩ := validItems_cons neutral _ rest h
      rw [renderNum]
      rw [normalize_append _ _
        (renderNum_head_ne_colon uml neutral rest hrest)]
      rw [normalize_renderSyl uml ls t hit.1.2.1
        (validTone_cases neutral t hit.2)]
      rw [normalize_render uml neutral rest hrest]
      rw [renderNum]

end Hanflow.PinyinConvert

namespace Hanflow.PinyinConvert

lemma replaceFirstAccented_none : ∀ l : List Char,
    (∀ c ∈ l, reverseToneLookup c = none) →
      replaceFirstAccented l = (0, l)
  | [], _ => rfl
  | c :: rest, h => by
      simp only [replaceFirstAccented, h c (by simp),
        replaceFirstAccented_none rest (fun c' hc' => h c' (by simp [hc']))]

lemma replaceFirstAccented_mark :
    ∀ (pre : List Char) (m base : Char) (t : Nat) (suf : List Char),
      (∀ c ∈ pre, reverseToneLookup c = none) →
      reverseToneLookup m = some (base, t) →
      replaceFirstAccented (pre ++ m :: suf) = (t, pre ++ base :: suf)
  | [], m, base, t, suf, _, hm => by
      simp only [List.nil_append, replaceFirstAccented, hm]
  | c :: pre, m, base, t, suf, h, hm => by
      simp only [List.cons_append, replaceFirstAccented, h c (by simp)]
      rw [show pre.append (m :: suf) = pre ++ m :: suf from rfl,
        replaceFirstAccented_mark pre m base t suf
          (fun c' hc' => h c' (by simp [hc'])) hm]

lemma toneMarksLookup_mem (base : Char) (row : List Char)
    (h : toneMarksLookup base = some row) : (base, row) ∈ _TONE_MARKS := by
  rw [toneMarksLookup] at h
  cases hf : _TONE_MARKS.find? (fun p => p.1 = base) with
  | none => rw [hf] at h; cases h
  | some p =>
      rw [hf] at h
      simp only [Option.map_some'] at h
      have hmem := List.mem_of_find?_eq_some hf
      have hp : p.1 = base := by simpa using List.find?_some hf
      obtain ⟨p1, p2⟩ := p
      cases hp
      cases h
      exact hmem

lemma mark_char_facts (base : Char) (row : List Char) (t : Nat)
    (hrow : toneMarksLookup base = some row)
    (hmem4 : t ∈ ([1, 2, 3, 4] : List Nat)) :
    reverseToneLookup (row.getD t base) = some (base, t) ∧
    isChunkChar (row.getD t base) = true := by
  have hm := toneMarksLookup_mem base row hrow
  have h5 := toneMarks_row_len (base, row) hm
  have hfacts := toneMarks_reverse (base, row) hm t hmem4
  have ht5 : t < row.length := by
    rw [h5]
    simp at hmem4
    omega
  have hd : row.getD t base = row.getD t ' ' := by
    rw [List.getD_eq_getElem?_getD, List.getD_eq_getElem?_getD,
      List.getElem?_eq_getElem ht5]
    rfl
  rw [hd]
  exact ⟨hfacts.1, hfacts.2.1⟩

lemma take_get_drop : ∀ (ls : List Char) (i : Nat) (base : Char),
    ls.get? i = some base → ls.take i ++ base :: ls.drop (i + 1) = ls
  | [], i, base => by simp
  | x :: rest, 0, base => by
      intro h
      simp at h
      simp [h]
  | x :: rest, i + 1, base => by
      intro h
      have := take_get_drop rest i base (by simpa using h)
      simp only [List.take_succ_cons, List.drop_succ_cons, List.cons_append]
      rw [show rest.drop (i + 1) = rest.drop (i + 1) from rfl]
      exact congrArg (x :: ·) this

lemma processChunkTone_marked (neutral : NeutralStyle) (uml : UmlautStyle)
    (ls : List Char) (t : Nat)
    (hne : ls ≠ []) (hlet : ∀ c ∈ ls, c ∈ pinyinLetters)
    (hvow : ∃ c ∈ ls, isVowelAll c = true)
    (h1 : 1 ≤ t) (h4 : t ≤ 4) :
    processChunkTone neutral uml (markAt ls t) = renderSyl uml ls t := by
  obtain ⟨i, base, row, hidx, hget, hrow⟩ := tone_target_spec ls hlet hvow
  obtain ⟨hrev, _⟩ := mark_char_facts base row t hrow (tone_mem_of_le t h1 h4)
  have hpre : ∀ c ∈ ls.take i, reverseToneLookup c = none :=
    fun c hc => pinyinLetters_unaccented c (hlet c (List.take_subset i ls hc))
  rw [markAt_eq ls t i base row hidx hget hrow,
    show ls.take i ++ [row.getD t base] ++ ls.drop (i + 1) =
      ls.take i ++ (row.getD t base) :: ls.drop (i + 1) from by simp]
  rw [processChunkTone.eq_def]
  simp only [replaceFirstAccented_mark (ls.take i) (row.getD t base) base t
    (ls.drop (i + 1)) hpre hrev]
  rw [take_get_drop ls i base hget]
  rw [if_neg (by omega), normalize_id_letters ls hlet, renderSyl,
    if_neg (by omega)]

lemma processChunkTone_plain (neutral : NeutralStyle) (uml : UmlautStyle)
    (ls : List Char) (hlet : ∀ c ∈ ls, c ∈ pinyinLetters) :
    processChunkTone neutral uml ls =
      _apply_umlaut_style_num uml ls ++
        (match neutral with | .five => ['5'] | .omit => []) := by
  rw [processChunkTone.eq_def]
  simp only [replaceFirstAccented_none ls
    (fun c hc => pinyinLetters_unaccented c (hlet c hc))]
  rw [if_true, normalize_id_letters ls hlet]
  cases neutral
  · simp
  · rfl

lemma markedSyl_facts (neutral : NeutralStyle) (ls : List Char) (t : Nat)
    (hne : ls ≠ []) (hlet : ∀ c ∈ ls, c ∈ pinyinLetters)
    (hvow : ∃ c ∈ ls, isVowelAll c = true) :
    markedSyl ls t ≠ [] ∧ ∀ c ∈ markedSyl ls t, isChunkChar c = true := by
  rw [markedSyl]
  by_cases h14 : 1 ≤ t ∧ t ≤ 4
  · rw [if_pos h14]
    obtain ⟨i, base, row, hidx, hget, hrow⟩ := tone_target_spec ls hlet hvow
    obtain ⟨_, hchunk⟩ :=
      mark_char_facts base row t hrow (tone_mem_of_le t h14.1 h14.2)
    rw [markAt_eq ls t i base row hidx hget hrow]
    constructor
    · simp
    · intro c hc
      rw [List.append_assoc] at hc
      rcases List.mem_append.1 hc with hc | hc
      · exact pinyinLetters_chunk c (hlet c (List.take_subset i ls hc))
      · rcases List.mem_append.1 hc with hc | hc
        · rw [List.mem_singleton.1 hc]
          exact hchunk
        · exact pinyinLetters_chunk c (hlet c (List.drop_subset (i + 1) ls hc))
  · rw [if_neg h14]
    exact ⟨hne, fun c hc => pinyinLetters_chunk c (hlet c hc)⟩

lemma convertTone_marked (neutral : NeutralStyle) (uml : UmlautStyle) :
    ∀ items : List NumItem, ValidItems neutral items →
      convertTone neutral uml (renderMarked items) = renderNum uml items
  | [], _ => by rw [renderMarked, renderNum, convertTone]
  | .sep c :: rest, h => by
      obtain ⟨hit, hrest, _⟩ := validItems_cons neutral _ rest h
      rw [renderMarked, renderNum, convertTone_sep neutral uml c _ hit.1,
        convertTone_marked neutral uml rest hrest]
  | .syl ls t :: rest, h => by
      obtain ⟨hit, hrest, hadj⟩ := validItems_cons neutral _ rest h
      obtain ⟨⟨hne, hlet, hvow⟩, htone⟩ := hit
      obtain ⟨hmne, hmchunk⟩ := markedSyl_facts neutral ls t hne hlet hvow
      have hrsh : renderMarked rest = [] ∨
          ∃ c' rest2, renderMarked rest = c' :: rest2 ∧
            isChunkChar c' = false ∧ isToneDigit c' = false := by
        cases rest with
        | nil => exact Or.inl rfl
        | cons it2 rest2 =>
            cases it2 with
            | sep c' =>
                have hsep : ValidSepChar c' := hrest.1 (.sep c') (by simp)
                exact Or.inr ⟨c', renderMarked rest2, by rw [renderMarked],
                  hsep.1, hsep.2⟩
            | syl ls2 t2 => exact absurd ⟨rfl, rfl⟩ (hadj (.syl ls2 t2) rfl)
      rw [renderMarked, renderNum,
        convertTone_chunk_nodigit neutral uml _ _ hmne hmchunk hrsh,
        convertTone_marked neutral uml rest hrest]
      rcases htone with ⟨h1, h4⟩ | ⟨rfl, rfl⟩ | ⟨rfl, rfl⟩
      · rw [markedSyl, if_pos ⟨h1, h4⟩,
          processChunkTone_marked neutral uml ls t hne hlet hvow h1 h4]
      · rw [markedSyl, if_neg (by omega),
          processChunkTone_plain .omit uml ls hlet, renderSyl, if_pos rfl]
      · rw [markedSyl, if_neg (by omega),
          processChunkTone_plain .five uml ls hlet, renderSyl,
          if_neg (by omega)]
        rfl

end Hanflow.PinyinConvert

namespace Hanflow.PinyinConvert

/-- C1: round-trip.  For every valid numbered-tone pinyin string — a
string `renderNum uml items` of syllables and separators as described at
`ValidItems` — converting to tone marks and back with the umlaut and
neutral-tone styles of the original convention returns the string
unchanged.  Both conversions are pure Lean functions of their input, as
the Python originals are pure functions with no side effects. -/
theorem pinyin_roundtrip (uml : UmlautStyle) (neutral : NeutralStyle)
    (items : List NumItem) (h : ValidItems neutral items) :
    pinyin_tone_to_num neutral uml
      (pinyin_num_to_tone (renderNum uml items)) = renderNum uml items := by
  rw [pinyin_num_to_tone, normalize_render uml neutral items h,
    convertNum_render neutral items h, pinyin_tone_to_num,
    convertTone_marked neutral uml items h]

/-- Witness for C1: the string `"lu:3 shi5"` in the `u:`-umlaut,
append-five convention, and `"pin1 yin1"` in the `ü`/omit convention. -/
theorem pinyin_roundtrip_witness :
    ValidItems .five
      [.syl ['l', 'ü'] 3, .sep ' ', .syl ['s', 'h', 'i'] 5] ∧
    pinyin_tone_to_num .five .ucolon
      (pinyin_num_to_tone (renderNum .ucolon
        [.syl ['l', 'ü'] 3, .sep ' ', .syl ['s', 'h', 'i'] 5])) =
      renderNum .ucolon
        [.syl ['l', 'ü'] 3, .sep ' ', .syl ['s', 'h', 'i'] 5] ∧
    ValidItems .omit
      [.syl ['p', 'i', 'n'] 1, .sep ' ', .syl ['y', 'i', 'n'] 1] ∧
    pinyin_tone_to_num .omit .ue
      (pinyin_num_to_tone (renderNum .ue
        [.syl ['p', 'i', 'n'] 1, .sep ' ', .syl ['y', 'i', 'n'] 1])) =
      renderNum .ue
        [.syl ['p', 'i', 'n'] 1, .sep ' ', .syl ['y', 'i', 'n'] 1] :=
  ⟨by decide,
   pinyin_roundtrip .ucolon .five
     [.syl ['l', 'ü'] 3, .sep ' ', .syl ['s', 'h', 'i'] 5] (by decide),
   by decide,
   pinyin_roundtrip .ue .omit
     [.syl ['p', 'i', 'n'] 1, .sep ' ', .syl ['y', 'i', 'n'] 1] (by decide)⟩

end Hanflow.PinyinConvert

namespace Hanflow.PinyinConvert

lemma pinyin_num_to_tone_syllable (ls : List Char) (t : Nat)
    (hne : ls ≠ []) (hlet : ∀ c ∈ ls, c ∈ pinyinLetters)
    (h1 : 1 ≤ t) (h4 : t ≤ 4) :
    pinyin_num_to_tone (ls ++ [natToDigit t]) = markAt ls t := by
  obtain ⟨_, _, htd, htc, hc1, hc2, hc3⟩ :=
    toneDigit_facts t (tone_mem_of_le' t h1 (by omega))
  rw [pinyin_num_to_tone]
  rw [normalize_id (ls ++ [natToDigit t]) (by
    intro c hc
    rcases List.mem_append.1 hc with hc | hc
    · exact (pinyinLetters_misc c (hlet c hc)).2.2
    · rw [List.mem_singleton.1 hc]
      exact ⟨hc1, hc2, hc3⟩)]
  rw [show ls ++ [natToDigit t] = ls ++ natToDigit t :: [] from rfl]
  rw [convertNum_chunk_digit ls (natToDigit t) [] hne
    (fun c hc => pinyinLetters_chunk c (hlet c hc)) htd htc]
  rw [processChunkNum_tone ls t hne hlet h1 h4]
  rw [show convertNum [] = [] from by rw [convertNum], List.append_nil]

/-- C7: for every valid numbered syllable carrying tone 1–4,
`pinyin_num_to_tone` places the diacritic on the vowel selected by the
specification's priority rule — the `u` of an `iu` if present, else the
`i` of a `ui`, else the first `a` (then the first `e`), else the `o` of an
`ou`, else the last vowel — leaving every other character unchanged; and
the three concrete examples of the specification hold.  (`(3)` reads
"first of `a`/`e`" as the source does: `a` takes priority over `e`; real
syllables never contain both.) -/
theorem tone_mark_priority :
    (∀ (ls : List Char) (t : Nat), ValidSylLetters ls → 1 ≤ t → t ≤ 4 →
      ∃ i base row,
        _tone_target_index ls = some i ∧
        ls.get? i = some base ∧
        toneMarksLookup base = some row ∧
        pinyin_num_to_tone (ls ++ [natToDigit t]) =
          ls.take i ++ [row.getD t base] ++ ls.drop (i + 1) ∧
        (hasPair (ls.map pyLowerChar) 'i' 'u' →
          (ls.map pyLowerChar).get? i = some 'u' ∧
          ∃ j, i = j + 1 ∧ (ls.map pyLowerChar).get? j = some 'i') ∧
        (¬hasPair (ls.map pyLowerChar) 'i' 'u' →
          hasPair (ls.map pyLowerChar) 'u' 'i' →
          (ls.map pyLowerChar).get? i = some 'i' ∧
          ∃ j, i = j + 1 ∧ (ls.map pyLowerChar).get? j = some 'u') ∧
        (¬hasPair (ls.map pyLowerChar) 'i' 'u' →
          ¬hasPair (ls.map pyLowerChar) 'u' 'i' →
          'a' ∈ ls.map pyLowerChar →
          (ls.map pyLowerChar).get? i = some 'a' ∧
          ∀ j < i, (ls.map pyLowerChar).get? j ≠ some 'a') ∧
        (¬hasPair (ls.map pyLowerChar) 'i' 'u' →
          ¬hasPair (ls.map pyLowerChar) 'u' 'i' →
          'a' ∉ ls.map pyLowerChar →
          'e' ∈ ls.map pyLowerChar →
          (ls.map pyLowerChar).get? i = some 'e' ∧
          ∀ j < i, (ls.map pyLowerChar).get? j ≠ some 'e') ∧
        (¬hasPair (ls.map pyLowerChar) 'i' 'u' →
          ¬hasPair (ls.map pyLowerChar) 'u' 'i' →
          'a' ∉ ls.map pyLowerChar →
          'e' ∉ ls.map pyLowerChar →
          hasPair (ls.map pyLowerChar) 'o' 'u' →
          (ls.map pyLowerChar).get? i = some 'o' ∧
          (ls.map pyLowerChar).get? (i + 1) = some 'u') ∧
        (¬hasPair (ls.map pyLowerChar) 'i' 'u' →
          ¬hasPair (ls.map pyLowerChar) 'u' 'i' →
          'a' ∉ ls.map pyLowerChar →
          'e' ∉ ls.map pyLowerChar →
          ¬hasPair (ls.map pyLowerChar) 'o' 'u' →
          isVowelAll base = true ∧
          ∀ j c', i < j → ls.get? j = some c' → isVowelAll c' = false)) ∧
    pinyin_num_to_tone_str "pin1 yin1" = "pīn yīn" ∧
    pinyin_num_to_tone_str "lv3" = "lǚ" ∧
    pinyin_num_to_tone_str "nu:3" = "nǚ" := by
  refine ⟨?_, ?_, ?_, ?_⟩
  · intro ls t hvalid h1 h4
    obtain ⟨hne, hlet, hvow⟩ := hvalid
    have hconv := pinyin_num_to_tone_syllable ls t hne hlet h1 h4
    cases hiu : rfindPair (ls.map pyLowerChar) 'i' 'u' with
    | some j =>
        have hsp := rfindPair_spec _ 'i' 'u' j hiu
        obtain ⟨c, hc, hcl⟩ := get?_map_lower ls (j + 1) 'u' hsp.2
        obtain ⟨row, hrow⟩ := Option.isSome_iff_exists.1
          (lower_vowel_markable c (hlet c (List.get?_mem hc)) 'u' (by decide) hcl)
        have hidx : _tone_target_index ls = some (j + 1) := by
          simp only [_tone_target_index, hiu]
        refine ⟨j + 1, c, row, hidx, hc, hrow,
          by rw [hconv, markAt_eq ls t (j + 1) c row hidx hc hrow],
          fun _ => ⟨hsp.2, j, rfl, hsp.1⟩, ?_, ?_, ?_, ?_, ?_⟩ <;>
          exact fun hniu => absurd ⟨j, hsp.1, hsp.2⟩ hniu
    | none =>
    have hniu : ¬hasPair (ls.map pyLowerChar) 'i' 'u' :=
      fun ⟨j, hj⟩ => rfindPair_none _ 'i' 'u' hiu j hj
    cases hui : rfindPair (ls.map pyLowerChar) 'u' 'i' with
    | some j =>
        have hsp := rfindPair_spec _ 'u' 'i' j hui
        obtain ⟨c, hc, hcl⟩ := get?_map_lower ls (j + 1) 'i' hsp.2
        obtain ⟨row, hrow⟩ := Option.isSome_iff_exists.1
          (lower_vowel_markable c (hlet c (List.get?_mem hc)) 'i' (by decide) hcl)
        have hidx : _tone_target_index ls = some (j + 1) := by
          simp only [_tone_target_index, hiu, hui]
        refine ⟨j + 1, c, row, hidx, hc, hrow,
          by rw [hconv, markAt_eq ls t (j + 1) c row hidx hc hrow],
          fun hp => absurd hp hniu,
          fun _ _ => ⟨hsp.2, j, rfl, hsp.1⟩, ?_, ?_, ?_, ?_⟩ <;>
          exact fun _ hnui => absurd ⟨j, hsp.1, hsp.2⟩ hnui
    | none =>
    have hnui : ¬hasPair (ls.map pyLowerChar) 'u' 'i' :=
      fun ⟨j, hj⟩ => rfindPair_none _ 'u' 'i' hui j hj
    cases ha : findChar (ls.map pyLowerChar) 'a' with
    | some j =>
        have hsp := findChar_spec _ 'a' j ha
        obtain ⟨c, hc, hcl⟩ := get?_map_lower ls j 'a' hsp.1
        obtain ⟨row, hrow⟩ := Option.isSome_iff_exists.1
          (lower_vowel_markable c (hlet c (List.get?_mem hc)) 'a' (by decide) hcl)
        have hidx : _tone_target_index ls = some j := by
          simp only [_tone_target_index, hiu, hui, ha]
        have hamem : 'a' ∈ ls.map pyLowerChar := List.get?_mem hsp.1
        refine ⟨j, c, row, hidx, hc, hrow,
          by rw [hconv, markAt_eq ls t j c row hidx hc hrow],
          fun hp => absurd hp hniu,
          fun _ hp => absurd hp hnui,
          fun _ _ _ => ⟨hsp.1, hsp.2⟩, ?_, ?_, ?_⟩ <;>
          exact fun _ _ hna => absurd hamem hna
    | none =>
    have hna : 'a' ∉ ls.map pyLowerChar := findChar_none _ 'a' ha
    cases he2 : findChar (ls.map pyLowerChar) 'e' with
    | some j =>
        have hsp := findChar_spec _ 'e' j he2
        obtain ⟨c, hc, hcl⟩ := get?_map_lower ls j 'e' hsp.1
        obtain ⟨row, hrow⟩ := Option.isSome_iff_exists.1
          (lower_vowel_markable c (hlet c (List.get?_mem hc)) 'e' (by decide) hcl)
        have hidx : _tone_target_index ls = some j := by
          simp only [_tone_target_index, hiu, hui, ha, he2]
        have hemem : 'e' ∈ ls.map pyLowerChar := List.get?_mem hsp.1
        refine ⟨j, c, row, hidx, hc, hrow,
          by rw [hconv, markAt_eq ls t j c row hidx hc hrow],
          fun hp => absurd hp hniu,
          fun _ hp => absurd hp hnui,
          fun _ _ hp => absurd hp hna,
          fun _ _ _ _ => ⟨hsp.1, hsp.2⟩, ?_, ?_⟩ <;>
          exact fun _ _ _ hne2 => absurd hemem hne2
    | none =>
    have hne2 : 'e' ∉ ls.map pyLowerChar := findChar_none _ 'e' he2
    cases hou : findPair (ls.map pyLowerChar) 'o' 'u' with
    | some j =>
        have hsp := findPair_spec _ 'o' 'u' j hou
        obtain ⟨c, hc, hcl⟩ := get?_map_lower ls j 'o' hsp.1
        obtain ⟨row, hrow⟩ := Option.isSome_iff_exists.1
          (lower_vowel_markable c (hlet c (List.get?_mem hc)) 'o' (by decide) hcl)
        have hidx : _tone_target_index ls = some j := by
          simp only [_tone_target_index, hiu, hui, ha, he2, hou]
        refine ⟨j, c, row, hidx, hc, hrow,
          by rw [hconv, markAt_eq ls t j c row hidx hc hrow],
          fun hp => absurd hp hniu,
          fun _ hp => absurd hp hnui,
          fun _ _ hp => absurd hp hna,
          fun _ _ _ hp => absurd hp hne2,
          fun _ _ _ _ _ => ⟨hsp.1, hsp.2⟩,
          fun _ _ _ _ hnou => absurd ⟨j, hsp.1, hsp.2⟩ hnou⟩
    | none =>
    have hnou : ¬hasPair (ls.map pyLowerChar) 'o' 'u' :=
      fun ⟨j, hj⟩ => findPair_none _ 'o' 'u' hou j hj
    cases hlast : lastVowelIdx ls with
    | some j =>
        obtain ⟨⟨c, hc, hcv⟩, hmax⟩ := lastVowelIdx_spec ls j hlast
        obtain ⟨row, hrow⟩ := Option.isSome_iff_exists.1
          (vowels_markable c (by simpa [isVowelAll] using hcv))
        have hidx : _tone_target_index ls = some j := by
          simp only [_tone_target_index, hiu, hui, ha, he2, hou, hlast]
        exact ⟨j, c, row, hidx, hc, hrow,
          by rw [hconv, markAt_eq ls t j c row hidx hc hrow],
          fun hp => absurd hp hniu,
          fun _ hp => absurd hp hnui,
          fun _ _ hp => absurd hp hna,
          fun _ _ _ hp => absurd hp hne2,
          fun _ _ _ _ hp => absurd hp hnou,
          fun _ _ _ _ _ => ⟨hcv, hmax⟩⟩
    | none =>
        exfalso
        obtain ⟨c, hcmem, hcv⟩ := hvow
        rw [lastVowelIdx_none ls hlast c hcmem] at hcv
        cases hcv
  · rw [pinyin_num_to_tone_str, pinyin_num_to_tone,
      show _normalize_umlaut_in_num "pin1 yin1".toList =
        renderNum .ue [.syl ['p', 'i', 'n'] 1, .sep ' ',
          .syl ['y', 'i', 'n'] 1] from rfl,
      convertNum_render .omit _ (by decide)]
    rfl
  · rw [pinyin_num_to_tone_str, pinyin_num_to_tone,
      show _normalize_umlaut_in_num "lv3".toList =
        renderNum .ue [.syl ['l', 'ü'] 3] from rfl,
      convertNum_render .omit _ (by decide)]
    rfl
  · rw [pinyin_num_to_tone_str, pinyin_num_to_tone,
      show _normalize_umlaut_in_num "nu:3".toList =
        renderNum .ue [.syl ['n', 'ü'] 3] from rfl,
      convertNum_render .omit _ (by decide)]
    rfl

end Hanflow.PinyinConvert

namespace Hanflow.PinyinConvert

/-- Witness for C7: the syllable `hui` with tone 4 (the `ui` rule fires,
marking the `i`). -/
theorem tone_mark_priority_witness :
    ∃ i base row,
      _tone_target_index ['h', 'u', 'i'] = some i ∧
      (['h', 'u', 'i'] : List Char).get? i = some base ∧
      toneMarksLookup base = some row ∧
      pinyin_num_to_tone (['h', 'u', 'i'] ++ [natToDigit 4]) =
        (['h', 'u', 'i'] : List Char).take i ++ [row.getD 4 base] ++
          (['h', 'u', 'i'] : List Char).drop (i + 1) ∧
      (hasPair ((['h', 'u', 'i'] : List Char).map pyLowerChar) 'i' 'u' →
        ((['h', 'u', 'i'] : List Char).map pyLowerChar).get? i = some 'u' ∧
        ∃ j, i = j + 1 ∧
          ((['h', 'u', 'i'] : List Char).map pyLowerChar).get? j = some 'i') ∧
      (¬hasPair ((['h', 'u', 'i'] : List Char).map pyLowerChar) 'i' 'u' →
        hasPair ((['h', 'u', 'i'] : List Char).map pyLowerChar) 'u' 'i' →
        ((['h', 'u', 'i'] : List Char).map pyLowerChar).get? i = some 'i' ∧
        ∃ j, i = j + 1 ∧
          ((['h', 'u', 'i'] : List Char).map pyLowerChar).get? j = some 'u') ∧
      (¬hasPair ((['h', 'u', 'i'] : List Char).map pyLowerChar) 'i' 'u' →
        ¬hasPair ((['h', 'u', 'i'] : List Char).map pyLowerChar) 'u' 'i' →
        'a' ∈ (['h', 'u', 'i'] : List Char).map pyLowerChar →
        ((['h', 'u', 'i'] : List Char).map pyLowerChar).get? i = some 'a' ∧
        ∀ j < i,
          ((['h', 'u', 'i'] : List Char).map pyLowerChar).get? j ≠ some 'a') ∧
      (¬hasPair ((['h', 'u', 'i'] : List Char).map pyLowerChar) 'i' 'u' →
        ¬hasPair ((['h', 'u', 'i'] : List Char).map pyLowerChar) 'u' 'i' →
        'a' ∉ (['h', 'u', 'i'] : List Char).map pyLowerChar →
        'e' ∈ (['h', 'u', 'i'] : List Char).map pyLowerChar →
        ((['h', 'u', 'i'] : List Char).map pyLowerChar).get? i = some 'e' ∧
        ∀ j < i,
          ((['h', 'u', 'i'] : List Char).map pyLowerChar).get? j ≠ some 'e') ∧
      (¬hasPair ((['h', 'u', 'i'] : List Char).map pyLowerChar) 'i' 'u' →
        ¬hasPair ((['h', 'u', 'i'] : List Char).map pyLowerChar) 'u' 'i' →
        'a' ∉ (['h', 'u', 'i'] : List Char).map pyLowerChar →
        'e' ∉ (['h', 'u', 'i'] : List Char).map pyLowerChar →
        hasPair ((['h', 'u', 'i'] : List Char).map pyLowerChar) 'o' 'u' →
        ((['h', 'u', 'i'] : List Char).map pyLowerChar).get? i = some 'o' ∧
        ((['h', 'u', 'i'] : List Char).map pyLowerChar).get? (i + 1) =
          some 'u') ∧
      (¬hasPair ((['h', 'u', 'i'] : List Char).map pyLowerChar) 'i' 'u' →
        ¬hasPair ((['h', 'u', 'i'] : List Char).map pyLowerChar) 'u' 'i' →
        'a' ∉ (['h', 'u', 'i'] : List Char).map pyLowerChar →
        'e' ∉ (['h', 'u', 'i'] : List Char).map pyLowerChar →
        ¬hasPair ((['h', 'u', 'i'] : List Char).map pyLowerChar) 'o' 'u' →
        isVowelAll base = true ∧
        ∀ j c', i < j → (['h', 'u', 'i'] : List Char).get? j = some c' →
          isVowelAll c' = false) :=
  tone_mark_priority.1 ['h', 'u', 'i'] 4 (by decide) (by decide) (by decide)

end Hanflow.PinyinConvert

namespace Hanflow.Db

/-- C3 counterexample: a cached entry whose `hskLevel` key is present but
holds Python `None` (an *empty* HSK-level field — exactly what a previous
run stores for a non-HSK word).  `ensure_dict_entry` nevertheless takes
the cache-hit fast path: it returns the entry verbatim, leaves the store
untouched and consults no further tier (empty effect log) — contradicting
the claim that the fast path requires a non-empty HSK-level field. -/
theorem ensure_dict_entry_null_level_fast_path :
    ensure_dict_entry "词"
      [("词", { word := "词", pinyin := some "ci2",
                meanings_en := some "word", hskLevel := some none })]
      (fun _ => none) (fun _ => none) (fun _ => "") (fun _ => "")
      (fun _ => ("", "")) (fun _ => none) 0 =
      ({ word := "词", pinyin := some "ci2", meanings_en := some "word",
         hskLevel := some none },
       [("词", { word := "词", pinyin := some "ci2",
                 meanings_en := some "word", hskLevel := some none })],
       []) ∧
    ({ word := "词", pinyin := some "ci2", meanings_en := some "word",
       hskLevel := some none } : DictEntry).hskLevel = some none :=
  ⟨rfl, rfl⟩

lemma cache_hit_doc_of_lookup_some (store : List (String × DictEntry))
    (word : String) (d : DictEntry)
    (hl : dictStoreLookup store word = some d) :
    cache_hit_doc store word = if d.hskLevel ≠ none then some d else none := by
  rw [cache_hit_doc, hl]

lemma cache_hit_doc_of_lookup_none (store : List (String × DictEntry))
    (word : String) (hl : dictStoreLookup store word = none) :
    cache_hit_doc store word = none := by
  rw [cache_hit_doc, hl]

/-- C3 (amended): `ensure_dict_entry` returns the cached pinyin and
meanings verbatim, with no further tier consulted and no collaborator
invoked, exactly when the cache entry exists and its `hskLevel` KEY is
present — even when its value is null/empty; otherwise it proceeds to
derivation and (at least) writes the merged entry back. -/
theorem ensure_dict_entry_fast_path_iff (word : String)
    (store : List (String × DictEntry))
    (lexicon : String → Option CedictEntry)
    (hsk_words : String → Option String) (tp : String → String)
    (llmEn : String → String) (llmEspt : String → String × String)
    (tts : String → Option String) (now : Nat) :
    (∀ doc, cache_hit_doc store word = some doc →
      ensure_dict_entry word store lexicon hsk_words tp llmEn llmEspt tts now =
        (doc, store, [])) ∧
    (cache_hit_doc store word = none →
      Eff.cacheWrite ∈
        (ensure_dict_entry word store lexicon hsk_words tp
          llmEn llmEspt tts now).2.2) := by
  constructor
  · intro doc h
    cases hl : dictStoreLookup store word with
    | none => rw [cache_hit_doc_of_lookup_none store word hl] at h; cases h
    | some d =>
        rw [cache_hit_doc_of_lookup_some store word d hl] at h
        by_cases hn : d.hskLevel ≠ none
        · rw [if_pos hn] at h
          cases h
          simp only [ensure_dict_entry, hl]
          rw [if_pos hn]
        · rw [if_neg hn] at h; cases h
  · intro h
    cases hl : dictStoreLookup store word with
    | none =>
        simp only [ensure_dict_entry, hl]
        simp [enrichEntry]
    | some d =>
        rw [cache_hit_doc_of_lookup_some store word d hl] at h
        by_cases hn : d.hskLevel ≠ none
        · rw [if_pos hn] at h; cases h
        · simp only [ensure_dict_entry, hl]
          rw [if_neg hn]
          simp [enrichEntry]

/-- Witness for the amended C3: a complete cached entry takes the fast
path; an empty cache leads to the enrichment path with its write. -/
theorem ensure_dict_entry_fast_path_iff_witness :
    ensure_dict_entry "好"
      [("好", { word := "好", pinyin := some "hao3",
                hskLevel := some (some "一级") })]
      (fun _ => none) (fun _ => none) (fun _ => "") (fun _ => "")
      (fun _ => ("", "")) (fun _ => none) 2 =
      ({ word := "好", pinyin := some "hao3",
         hskLevel := some (some "一级") },
       [("好", { word := "好", pinyin := some "hao3",
                 hskLevel := some (some "一级") })], []) ∧
    Eff.cacheWrite ∈
      (ensure_dict_entry "好" [] (fun _ => none) (fun _ => none)
        (fun _ => "") (fun _ => "") (fun _ => ("", ""))
        (fun _ => none) 2).2.2 :=
  ⟨(ensure_dict_entry_fast_path_iff "好"
      [("好", { word := "好", pinyin := some "hao3",
                hskLevel := some (some "一级") })]
      (fun _ => none) (fun _ => none) (fun _ => "") (fun _ => "")
      (fun _ => ("", "")) (fun _ => none) 2).1 _ rfl,
   (ensure_dict_entry_fast_path_iff "好" [] (fun _ => none) (fun _ => none)
      (fun _ => "") (fun _ => "") (fun _ => ("", ""))
      (fun _ => none) 2).2 rfl⟩

/-- C5 counterexample: on the cache-hit path `ensure_dict_entry` performs
no write at all — the effect log is empty (no `Eff.cacheWrite`) and the
store is returned unchanged — contradicting the claim that the merged
entry is written back unconditionally on every call. -/
theorem ensure_dict_entry_no_write_on_hit :
    ensure_dict_entry "个"
      [("个", { word := "个", pinyin := some "ge4",
                hskLevel := some (some "一级") })]
      (fun _ => none) (fun _ => none) (fun _ => "") (fun _ => "")
      (fun _ => ("", "")) (fun _ => none) 1 =
      ({ word := "个", pinyin := some "ge4",
         hskLevel := some (some "一级") },
       [("个", { word := "个", pinyin := some "ge4",
                 hskLevel := some (some "一级") })], []) ∧
    Eff.cacheWrite ∉ ([] : List Eff) :=
  ⟨rfl, by simp⟩

/-- C5 (amended): `ensure_dict_entry` writes the merged entry back to the
cache before returning on the enrichment path only (cache miss, or entry
without the `hskLevel` key) — there the returned store is the upsert of
the returned entry; on the cache-hit path it returns the cached entry
without writing. -/
theorem ensure_dict_entry_write_policy (word : String)
    (store : List (String × DictEntry))
    (lexicon : String → Option CedictEntry)
    (hsk_words : String → Option String) (tp : String → String)
    (llmEn : String → String) (llmEspt : String → String × String)
    (tts : String → Option String) (now : Nat) :
    (cache_hit_doc store word = none →
      Eff.cacheWrite ∈
        (ensure_dict_entry word store lexicon hsk_words tp
          llmEn llmEspt tts now).2.2 ∧
      (ensure_dict_entry word store lexicon hsk_words tp
          llmEn llmEspt tts now).2.1 =
        dictStoreSet store word
          (ensure_dict_entry word store lexicon hsk_words tp
            llmEn llmEspt tts now).1) ∧
    (∀ doc, cache_hit_doc store word = some doc →
      (ensure_dict_entry word store lexicon hsk_words tp
          llmEn llmEspt tts now).2.1 = store ∧
      Eff.cacheWrite ∉
        (ensure_dict_entry word store lexicon hsk_words tp
          llmEn llmEspt tts now).2.2) := by
  constructor
  · intro h
    cases hl : dictStoreLookup store word with
    | none =>
        simp only [ensure_dict_entry, hl]
        exact ⟨by simp [enrichEntry], rfl⟩
    | some d =>
        rw [cache_hit_doc_of_lookup_some store word d hl] at h
        by_cases hn : d.hskLevel ≠ none
        · rw [if_pos hn] at h; cases h
        · simp only [ensure_dict_entry, hl]
          rw [if_neg hn]
          exact ⟨by simp [enrichEntry], rfl⟩
  · intro doc h
    cases hl : dictStoreLookup store word with
    | none => rw [cache_hit_doc_of_lookup_none store word hl] at h; cases h
    | some d =>
        rw [cache_hit_doc_of_lookup_some store word d hl] at h
        by_cases hn : d.hskLevel ≠ none
        · simp only [ensure_dict_entry, hl]
          rw [if_pos hn]
          exact ⟨rfl, by simp⟩
        · rw [if_neg hn] at h; cases h

/-- Witness for the amended C5: an empty cache (write happens) and a
complete cached entry (no write). -/
theorem ensure_dict_entry_write_policy_witness :
    (Eff.cacheWrite ∈
      (ensure_dict_entry "大" [] (fun _ => none) (fun _ => none)
        (fun _ => "") (fun _ => "") (fun _ => ("", ""))
        (fun _ => none) 3).2.2 ∧
     (ensure_dict_entry "大" [] (fun _ => none) (fun _ => none)
        (fun _ => "") (fun _ => "") (fun _ => ("", ""))
        (fun _ => none) 3).2.1 =
       dictStoreSet [] "大"
         (ensure_dict_entry "大" [] (fun _ => none) (fun _ => none)
           (fun _ => "") (fun _ => "") (fun _ => ("", ""))
           (fun _ => none) 3).1) ∧
    (ensure_dict_entry "大"
      [("大", { word := "大", hskLevel := some (some "一级") })]
      (fun _ => none) (fun _ => none) (fun _ => "") (fun _ => "")
      (fun _ => ("", "")) (fun _ => none) 3).2.1 =
      [("大", { word := "大", hskLevel := some (some "一级") })] ∧
    Eff.cacheWrite ∉
      (ensure_dict_entry "大"
        [("大", { word := "大", hskLevel := some (some "一级") })]
        (fun _ => none) (fun _ => none) (fun _ => "") (fun _ => "")
        (fun _ => ("", "")) (fun _ => none) 3).2.2 :=
  ⟨(ensure_dict_entry_write_policy "大" [] (fun _ => none) (fun _ => none)
      (fun _ => "") (fun _ => "") (fun _ => ("", ""))
      (fun _ => none) 3).1 rfl,
   ((ensure_dict_entry_write_policy "大"
      [("大", { word := "大", hskLevel := some (some "一级") })]
      (fun _ => none) (fun _ => none) (fun _ => "") (fun _ => "")
      (fun _ => ("", "")) (fun _ => none) 3).2 _ rfl).1,
   ((ensure_dict_entry_write_policy "大"
      [("大", { word := "大", hskLevel := some (some "一级") })]
      (fun _ => none) (fun _ => none) (fun _ => "") (fun _ => "")
      (fun _ => ("", "")) (fun _ => none) 3).2 _ rfl).2⟩

end Hanflow.Db
